import Mathlib

/-!
# Binding environment variables to struct fields (`var.go`, `env.go`)

A shallow embedding of package `env`: the converter (`convert`, `parseInt`,
`parseBool`), the struct-tag parser (`envVar.parse`), the binder (`getVal`)
and the record processor (`NewEnv`, `SetValue`, `Process`), followed by
theorems about them.

Modelling conventions.

* A Go `string` is a `Str`, the list of its Unicode code points (the model
  covers valid UTF-8 strings).
* A `reflect.Type` is a `Kind`: a predeclared type, a defined type over one of
  them, or a type of another kind; a `reflect.Value` is a `Value`, whose
  constructor `invalid` is the zero Value `reflect.ValueOf(nil)`.
* A Go `(reflect.Value, error)` result is a pair `Value × Option GoError`
  (`none` is the `nil` error). A call that can panic returns an `Outcome`.
* The process environment is a list of `NAME=value` entries, read by `Getenv`.
* A struct is a `Record`, the list of its fields with their contents; the
  argument of `Process` is a `Target`. `reflect.Value.Set` panics on a field
  that is not exported and on a Value that is not assignable to the field.
* `unicode.ToUpper`, the case table behind `strings.ToUpper`, is the parameter
  `upper : Char → Char` of every definition that upper-cases a key.
-/

namespace Env

/-- A Go string, as the sequence of its code points. -/
abbrev Str := List Char

/-- The underlying type of a defined type whose kind `convert` supports. -/
inductive Underlying
  | string
  | int
  | bool
  deriving DecidableEq

/-- The declared type of a field, as far as the package tells types apart:
the predeclared types `string`, `int` and `bool`, whose kinds `convert`
switches on; `other name`, any type of another kind, under the name
`Kind.String()` gives that kind; `defined typeName u`, a defined type
(`type Level int`) of the name `typeName` whose underlying type is `u`, and
whose kind is the kind of `u`. -/
inductive Kind
  | string
  | int
  | bool
  | other (name : Str)
  | defined (typeName : Str) (underlying : Underlying)
  deriving DecidableEq

/-- The text of `t.Kind().String()`. -/
def Kind.name : Kind → Str
  | Kind.string => "string".toList
  | Kind.int => "int".toList
  | Kind.bool => "bool".toList
  | Kind.other name => name
  | Kind.defined _ Underlying.string => "string".toList
  | Kind.defined _ Underlying.int => "int".toList
  | Kind.defined _ Underlying.bool => "bool".toList

/-- A `reflect.Value`. `invalid` is the zero Value, `reflect.ValueOf(nil)`;
`string`, `int` and `bool` are `reflect.ValueOf` of a Go string, int and bool,
Values of the predeclared types; `zero typ` is `reflect.Zero` of any other
type, a defined type among them, under the name of that type. -/
inductive Value
  | invalid
  | string (s : Str)
  | int (i : Int)
  | bool (b : Bool)
  | zero (typ : Str)
  deriving DecidableEq

/-- The Go struct `errConversion` (`Typ` is its field `Type`). -/
structure errConversion where
  Value : Str
  Typ : Str
  deriving DecidableEq

/-- The method `(*errConversion).Error`:
`fmt.Sprintf("could not convert value \"%s\" into %s type", e.Value, e.Type)`. -/
def errConversion.Error (e : errConversion) : Str :=
  "could not convert value \"".toList ++ e.Value ++ "\" into ".toList ++ e.Typ ++ " type".toList

/-- The function `conversionError(v, t)`. -/
def conversionError (v t : Str) : errConversion :=
  { Value := v, Typ := t }

/-- The non-nil `error` values of the package, with the operands of the call
that builds them:
`conversion e` is an `*errConversion`;
`required key` is `fmt.Errorf("%s required", key)`;
`notAllowed key value options` is
`fmt.Errorf("%v=\"%v\" not in allowed options: %v", key, value, options)`;
`invalidValue` is the variable `errInvalidValue` of `env.go`. -/
inductive GoError
  | conversion (e : errConversion)
  | required (key : Str)
  | notAllowed (key : Str) (value : Value) (options : List Value)
  | invalidValue
  deriving DecidableEq

/-- The text `err.Error()` of an error whose operands are strings; the text of
`notAllowed`, which `fmt` renders from reflect Values, is left out (`none`). -/
def GoError.Error : GoError → Option Str
  | GoError.conversion e => some e.Error
  | GoError.required key => some (key ++ " required".toList)
  | GoError.notAllowed _ _ _ => none
  | GoError.invalidValue => some "expected value must be a pointer to a struct".toList

/-- What a call that may panic does: it returns the pair `(value, err)` or panics. -/
inductive Outcome
  | ret (value : Value) (err : Option GoError)
  | panic
  deriving DecidableEq

/-- The parts of a `reflect.StructField` that `var.go` reads: the field's name,
its declared type (`Typ` is the field `Type`) and `Tag`, the text
`field.Tag.Get("env")` returns. -/
structure StructField where
  Name : Str
  Typ : Kind
  Tag : Str
  deriving DecidableEq

/-- The Go struct `envVar`. -/
structure envVar where
  key : Str
  keyPrefix : Str
  required : Bool
  default_ : Value
  options : List Value
  deriving DecidableEq

/-! ## Library functions -/

/-- `strings.Split(s, sep)` for a separator of one character: the pieces of `s`
between the occurrences of `sep`, never an empty list. -/
def Split (sep : Char) : Str → List Str
  | [] => [[]]
  | c :: cs =>
    if c = sep then [] :: Split sep cs
    else
      match Split sep cs with
      | [] => [[c]]
      | piece :: pieces => (c :: piece) :: pieces

/-- `strings.ToUpper(s)`: every code point mapped through `unicode.ToUpper`. -/
def ToUpper (upper : Char → Char) (s : Str) : Str :=
  s.map upper

/-- `unicode.ToUpper` on the ASCII range, to evaluate examples. -/
def upperASCII (c : Char) : Char :=
  if 97 ≤ c.toNat ∧ c.toNat ≤ 122 then Char.ofNat (c.toNat - 32) else c

/-- `os.Getenv(key)`: the value of the first entry named `key`, and the empty
string when there is none or when `key` is empty. -/
def Getenv (environ : List (Str × Str)) (key : Str) : Str :=
  if key = [] then []
  else
    match environ.lookup key with
    | some value => value
    | none => []

/-- `reflect.Zero(t)`: a Value of the type `t` itself. -/
def Zero : Kind → Value
  | Kind.string => Value.string []
  | Kind.int => Value.int 0
  | Kind.bool => Value.bool false
  | Kind.other name => Value.zero name
  | Kind.defined typeName _ => Value.zero typeName

/-- The digits loop of `strconv.Atoi`: `n = n*10 + (ch - '0')` over the bytes,
a syntax error (`none`) at the first byte that is not a decimal digit. -/
def parseDigits : Str → Nat → Option Nat
  | [], n => some n
  | ch :: rest, n =>
    if 48 ≤ ch.toNat ∧ ch.toNat ≤ 57 then parseDigits rest (n * 10 + (ch.toNat - 48))
    else none

/-- `strconv.Atoi(s)` with a 64-bit `int`: an optional sign `+` or `-`, then
one decimal digit or more, and the value within the range of `int`; `none`
stands for its `*NumError`. -/
def Atoi (s : Str) : Option Int :=
  let body := if s.head? = some '-' ∨ s.head? = some '+' then s.tail else s
  if body = [] then none
  else
    match parseDigits body 0 with
    | none => none
    | some n =>
      if s.head? = some '-' then
        if n ≤ 2 ^ 63 then some (-(n : Int)) else none
      else
        if n < 2 ^ 63 then some (n : Int) else none

/-- `strconv.ParseBool(str)`: a switch over the twelve accepted forms. -/
def ParseBool (str : Str) : Option Bool :=
  if str ∈ ["1".toList, "t".toList, "T".toList, "TRUE".toList, "true".toList, "True".toList] then
    some true
  else if str ∈ ["0".toList, "f".toList, "F".toList, "FALSE".toList, "false".toList,
      "False".toList] then
    some false
  else none

/-! ## `var.go` -/

/-- The function `parseInt`. Its first branch returns
`reflect.Zero(reflect.TypeOf(reflect.Int))`, the zero of the type `reflect.Kind`;
`convert` never reaches it, as it returns on the empty string before. -/
def parseInt (value : Str) : Value × Option GoError :=
  if value = [] then (Value.zero "reflect.Kind".toList, none)
  else
    match Atoi value with
    | none => (Value.invalid, some (GoError.conversion (conversionError value "int".toList)))
    | some i => (Value.int i, none)

/-- The function `parseBool`, with the same first branch as `parseInt`. -/
def parseBool (value : Str) : Value × Option GoError :=
  if value = [] then (Value.zero "reflect.Kind".toList, none)
  else
    match ParseBool value with
    | none => (Value.invalid, some (GoError.conversion (conversionError value "bool".toList)))
    | some b => (Value.bool b, none)

/-- The function `convert`. Its switch is on `t.Kind()`, so that a defined type
is converted as its underlying type is, to a Value of the predeclared type. -/
def convert (t : Kind) (value : Str) : Value × Option GoError :=
  if value = [] then (Value.invalid, none)
  else
    match t with
    | Kind.string => (Value.string value, none)
    | Kind.int => parseInt value
    | Kind.bool => parseBool value
    | Kind.defined _ Underlying.string => (Value.string value, none)
    | Kind.defined _ Underlying.int => parseInt value
    | Kind.defined _ Underlying.bool => parseBool value
    | Kind.other _ =>
      (Value.invalid,
        some (GoError.conversion (conversionError value ("unsupported ".toList ++ t.name))))

/-- The method `optionsContains`, over the list `v.options`. `s.Interface()` and
`v.Interface()` panic on the zero Value (`none` is the panic); two valid
values are equal as interfaces when their types and contents are, so that the
zero of a defined type, a `Value.zero`, equals no option, all of which are
Values of a predeclared type. -/
def optionsContains : List Value → Value → Option Bool
  | [], _ => some false
  | v :: rest, s =>
    if s = Value.invalid ∨ v = Value.invalid then none
    else if s = v then some true
    else optionsContains rest s

/-- The name of a tag parameter, `option[0]` of `strings.Split(tagParam, "=")`. -/
def tokenParam (tagParam : Str) : Str :=
  (Split '=' tagParam).headD []

/-- The value of a tag parameter: `option[1]` when `len(option) > 1`, else `""`. -/
def tokenValue (tagParam : Str) : Str :=
  if (Split '=' tagParam).length > 1 then (Split '=' tagParam).getD 1 [] else []

/-- The parameter name `key` of the switch in `parse`. -/
def paramKey : Str := "key".toList

/-- The parameter name `required` of the switch in `parse`. -/
def paramRequired : Str := "required".toList

/-- The parameter name `default` of the switch in `parse`. -/
def paramDefault : Str := "default".toList

/-- The parameter name `options` of the switch in `parse`. -/
def paramOptions : Str := "options".toList

/-- The loop of `parse` over the elements of an `options=` value: every element
converted, the first conversion error returned. -/
def convertAll (t : Kind) : List Str → Except GoError (List Value)
  | [] => Except.ok []
  | val :: rest =>
    match convert t val with
    | (_, some err) => Except.error err
    | (v1, none) =>
      match convertAll t rest with
      | Except.error err => Except.error err
      | Except.ok values => Except.ok (v1 :: values)

/-- The loop of `parse` over `tagParams`, from the local `key` and the
receiver `v`: the final `key` and receiver, and the error of an early return. -/
def parseLoop (t : Kind) : List Str → Str → envVar → Str × envVar × Option GoError
  | [], key, v => (key, v, none)
  | tagParam :: rest, key, v =>
    if tokenParam tagParam = paramKey then
      parseLoop t rest (tokenValue tagParam) v
    else if tokenParam tagParam = paramRequired then
      parseLoop t rest key { v with required := true }
    else if tokenParam tagParam = paramDefault then
      match convert t (tokenValue tagParam) with
      | (_, some err) => (key, v, some err)
      | (d, none) => parseLoop t rest key { v with default_ := d }
    else if tokenParam tagParam = paramOptions then
      match convertAll t (Split ',' (tokenValue tagParam)) with
      | Except.error err => (key, v, some err)
      | Except.ok values => parseLoop t rest key { v with options := values }
    else parseLoop t rest key v

/-- The method `parse`: the receiver as `parse` leaves it, and the error it returns. -/
def parse (upper : Char → Char) (v : envVar) (field : StructField) : envVar × Option GoError :=
  if field.Tag = [] then (v, none)
  else
    match parseLoop field.Typ (Split ' ' field.Tag) field.Name v with
    | (_, v1, some err) => (v1, some err)
    | (key, v1, none) => ({ v1 with key := ToUpper upper (v1.keyPrefix ++ key) }, none)

/-- The composite literal `&envVar{keyPrefix: keyPrefix}` of `getVal`. -/
def emptyVar (keyPrefix : Str) : envVar :=
  { key := [], keyPrefix := keyPrefix, required := false, default_ := Value.invalid,
    options := [] }

/-- The variable `newVar` of `getVal` after `newVar.parse(field)`, a call whose
returned error `getVal` drops. -/
def newVar (upper : Char → Char) (keyPrefix : Str) (field : StructField) : envVar :=
  (parse upper (emptyVar keyPrefix) field).1

/-- The error `newVar.parse(field)` returns inside `getVal`. -/
def parseError (upper : Char → Char) (keyPrefix : Str) (field : StructField) : Option GoError :=
  (parse upper (emptyVar keyPrefix) field).2

/-- The function `getVal` up to the options check: the value resolved from the
environment, the default or the zero value, or the error returned before. -/
def resolve (upper : Char → Char) (environ : List (Str × Str)) (keyPrefix : Str)
    (field : StructField) : Value × Option GoError :=
  match convert field.Typ (Getenv environ (newVar upper keyPrefix field).key) with
  | (value, some err) => (value, some err)
  | (value, none) =>
    if value = Value.invalid then
      if (newVar upper keyPrefix field).required then
        (value, some (GoError.required (newVar upper keyPrefix field).key))
      else if (newVar upper keyPrefix field).default_ ≠ Value.invalid then
        ((newVar upper keyPrefix field).default_, none)
      else (Zero field.Typ, none)
    else (value, none)

/-- The options check that ends `getVal`. -/
def checkOptions (v : envVar) (value : Value) : Outcome :=
  if v.options.length > 0 then
    match optionsContains v.options value with
    | none => Outcome.panic
    | some false => Outcome.ret value (some (GoError.notAllowed v.key value v.options))
    | some true => Outcome.ret value none
  else Outcome.ret value none

/-- The function `getVal`. -/
def getVal (upper : Char → Char) (environ : List (Str × Str)) (keyPrefix : Str)
    (field : StructField) : Outcome :=
  match resolve upper environ keyPrefix field with
  | (value, some err) => Outcome.ret value (some err)
  | (value, none) => checkOptions (newVar upper keyPrefix field) value

/-! ## `env.go`

A struct value is a `Record`, the list of its fields in declaration order, each
with its descriptor, whether its name is exported, and its current content.
Field names are distinct but for the blank name `_`, which is not exported, so
that `FieldByName(name)` is the field `name` was read from and the loop of
`Process` over `fieldNames()` is a loop over the fields themselves (the first
blank field ends it, by an error or by the panic of `Set`). -/

/-- A field of a struct value: the descriptor `var.go` reads, whether the
field's name is exported (`PkgPath` is empty), and the field's content. -/
structure Field where
  descriptor : StructField
  exported : Bool
  content : Value
  deriving DecidableEq

/-- A struct value: its fields in declaration order. -/
abbrev Record := List Field

/-- Whether a Value is assignable to a field of the declared type, as
`reflect.Value.Set` demands: it is `reflect.Zero` of that very type, or a
Value of a predeclared type for a field of that predeclared type. A Value of
type `int` is not assignable to a field of a defined type over `int`, and the
zero Value is assignable to nothing. -/
def assignable (t : Kind) (v : Value) : Bool :=
  decide (v = Zero t) ||
    match t, v with
    | Kind.string, Value.string _ => true
    | Kind.int, Value.int _ => true
    | Kind.bool, Value.bool _ => true
    | _, _ => false

/-- The call `e.value.FieldByName(name).Set(v)`: `none` is its panic, on a
field that is not exported and on a Value that is not assignable. -/
def Field.Set (f : Field) (v : Value) : Option Field :=
  if f.exported = true ∧ assignable f.descriptor.Typ v = true then some { f with content := v }
  else none

/-- The argument `v interface{}` of `Process`: the nil interface; a value
whose type is not a pointer type; a nil pointer; a pointer to a value that is
not a struct; a pointer to a struct. -/
inductive Target
  | untypedNil
  | nonPointer
  | nilPointer
  | pointerToOther
  | pointerToStruct (record : Record)
  deriving DecidableEq

/-- What a call that writes to its target does: it returns an error, or nil,
and leaves the target in a state, or it panics. -/
inductive ProcessOutcome (α : Type)
  | ret (state : α) (err : Option GoError)
  | panic
  deriving DecidableEq

/-- The Go struct `Env`: `value` is the struct that `e.value` refers to, `none`
for the zero Value, and `keyPrefix` is the field `prefix`. -/
structure EnvT where
  value : Option Record
  keyPrefix : Str
  deriving DecidableEq

/-- The method `SetValue`; `none` is a panic. `reflect.TypeOf(nil)` is the nil
Type, on which `Kind()` panics; `Elem()` of a nil pointer is the zero Value, of
kind `Invalid`. -/
def SetValue (e : EnvT) : Target → Option (EnvT × Option GoError)
  | Target.untypedNil => none
  | Target.nonPointer => some (e, some GoError.invalidValue)
  | Target.nilPointer => some (e, some GoError.invalidValue)
  | Target.pointerToOther => some (e, some GoError.invalidValue)
  | Target.pointerToStruct record => some ({ e with value := some record }, none)

/-- The method `SetPrefix`. -/
def SetPrefix (e : EnvT) (p : Str) : EnvT :=
  { e with keyPrefix := p }

/-- The function `NewEnv`, `prefixArgs` being its variadic parameter `prefix`;
`none` is a panic. -/
def NewEnv (v : Target) (prefixArgs : List Str) : Option (EnvT × Option GoError) :=
  match SetValue
      (match prefixArgs with
        | [] => { value := none, keyPrefix := [] }
        | p :: _ => SetPrefix { value := none, keyPrefix := [] } p) v with
  | none => none
  | some (e, some err) => some (e, some err)
  | some (e, none) =>
    match SetValue e v with
    | none => none
    | some (e1, _) => some (e1, none)

/-- The loop of the method `Process` over the fields: the first error of
`getVal` is returned with the fields before it written and the others as they
were; a field whose `getVal` succeeds is set to the value, and the loop panics
when `getVal` or `Set` does. -/
def processFields (upper : Char → Char) (environ : List (Str × Str)) (keyPrefix : Str) :
    Record → ProcessOutcome Record
  | [] => ProcessOutcome.ret [] none
  | f :: rest =>
    match getVal upper environ keyPrefix f.descriptor with
    | Outcome.panic => ProcessOutcome.panic
    | Outcome.ret _ (some err) => ProcessOutcome.ret (f :: rest) (some err)
    | Outcome.ret v none =>
      match f.Set v with
      | none => ProcessOutcome.panic
      | some f1 =>
        match processFields upper environ keyPrefix rest with
        | ProcessOutcome.panic => ProcessOutcome.panic
        | ProcessOutcome.ret rest1 err => ProcessOutcome.ret (f1 :: rest1) err

/-- The method `(e *Env) Process`; `e.value.Type()` panics on the zero Value. -/
def EnvT.Process (upper : Char → Char) (environ : List (Str × Str)) (e : EnvT) :
    ProcessOutcome Record :=
  match e.value with
  | none => ProcessOutcome.panic
  | some record => processFields upper environ e.keyPrefix record

/-- The function `Process`: the error it returns and the target as it leaves it. -/
def Process (upper : Char → Char) (environ : List (Str × Str)) (v : Target)
    (prefixArgs : List Str) : ProcessOutcome Target :=
  match NewEnv v prefixArgs with
  | none => ProcessOutcome.panic
  | some (_, some err) => ProcessOutcome.ret v (some err)
  | some (e, none) =>
    match e.Process upper environ with
    | ProcessOutcome.panic => ProcessOutcome.panic
    | ProcessOutcome.ret record err => ProcessOutcome.ret (Target.pointerToStruct record) err

/-! ## Vocabulary of the specification -/

/-- The value of the last tag parameter named `name`, when the tag has one. -/
def lastValue (name : Str) : List Str → Option Str
  | [] => none
  | tagParam :: rest =>
    match lastValue name rest with
    | some value => some value
    | none => if tokenParam tagParam = name then some (tokenValue tagParam) else none

/-- The derived key of the specification, uppercase(prefix + key): `key` is the
override of the last `key=` parameter when the tag has one, and the field's
declared name otherwise. -/
def derivedKey (upper : Char → Char) (keyPrefix : Str) (field : StructField) : Str :=
  ToUpper upper (keyPrefix ++ (lastValue paramKey (Split ' ' field.Tag)).getD field.Name)

/-- Whether the tag has a parameter named `required`. -/
def hasRequired (tag : Str) : Bool :=
  (Split ' ' tag).any (fun tagParam => decide (tokenParam tagParam = paramRequired))

/-- The six forms the standard boolean parser reads as true. -/
def trueForms : List Str :=
  ["1".toList, "t".toList, "T".toList, "TRUE".toList, "true".toList, "True".toList]

/-- The six forms the standard boolean parser reads as false. -/
def falseForms : List Str :=
  ["0".toList, "f".toList, "F".toList, "FALSE".toList, "false".toList, "False".toList]

/-- The decimal digit `d` as a character. -/
def digitChar (d : Nat) : Char :=
  Char.ofNat (48 + d)

/-- The decimal digits of `n` without leading zeros, most significant first;
`fuel` bounds the number of digits. -/
def formatNatFuel : Nat → Nat → Str
  | 0, _ => []
  | fuel + 1, n =>
    if n < 10 then [digitChar n] else formatNatFuel fuel (n / 10) ++ [digitChar (n % 10)]

/-- The canonical base-10 rendering of a natural number. -/
def formatNat (n : Nat) : Str :=
  formatNatFuel (n + 1) n

/-- The canonical base-10 rendering of an integer: a leading `-` when it is
negative, then the digits of its absolute value. -/
def formatInt (n : Int) : Str :=
  if n < 0 then '-' :: formatNat n.natAbs else formatNat n.natAbs

/-- Whether a string is a base-10 numeral: not empty, decimal digits only. -/
def isDecimal (ds : Str) : Bool :=
  !ds.isEmpty && ds.all (fun c => decide (48 ≤ c.toNat ∧ c.toNat ≤ 57))

/-- The number a base-10 numeral denotes, each digit weighted by its position. -/
def decimalValue : Str → Nat
  | [] => 0
  | c :: cs => (c.toNat - 48) * 10 ^ cs.length + decimalValue cs

/-- The integer an optionally signed base-10 numeral denotes; `none` when the
string is not such a numeral. -/
def intLiteralValue : Str → Option Int
  | [] => none
  | c :: cs =>
    if c = '-' then (if isDecimal cs then some (-(decimalValue cs : Int)) else none)
    else if c = '+' then (if isDecimal cs then some (decimalValue cs : Int) else none)
    else if isDecimal (c :: cs) then some (decimalValue (c :: cs) : Int) else none

/-- Whether a string is a valid literal of `int`: an optionally signed base-10
numeral within the signed 64-bit range. -/
def isIntLiteral (s : Str) : Bool :=
  match intLiteralValue s with
  | none => false
  | some n => decide (-(2 : Int) ^ 63 ≤ n ∧ n < (2 : Int) ^ 63)

/-- Whether the name of a tag parameter is one of `key`, `required`, `default`
and `options`. -/
def recognized (tagParam : Str) : Bool :=
  decide (tokenParam tagParam = paramKey ∨ tokenParam tagParam = paramRequired ∨
    tokenParam tagParam = paramDefault ∨ tokenParam tagParam = paramOptions)

/-- The pieces joined with the separator between them, as `strings.Join` does. -/
def Join (sep : Char) : List Str → Str
  | [] => []
  | [piece] => piece
  | piece :: next :: pieces => piece ++ sep :: Join sep (next :: pieces)

/-- The annotation without the parameters whose name is not recognized. -/
def stripUnrecognized (tag : Str) : Str :=
  Join ' ' ((Split ' ' tag).filter recognized)

/-- A binding policy with the attribute of one more tag parameter replaced: the
key by uppercase(prefix + value), `required` set, the default or the options by
the converted value; a parameter of another name changes nothing. -/
def withParam (upper : Char → Char) (t : Kind) (v : envVar) (tagParam : Str) : envVar :=
  if tokenParam tagParam = paramKey then
    { v with key := ToUpper upper (v.keyPrefix ++ tokenValue tagParam) }
  else if tokenParam tagParam = paramRequired then { v with required := true }
  else if tokenParam tagParam = paramDefault then
    { v with default_ := (convert t (tokenValue tagParam)).1 }
  else if tokenParam tagParam = paramOptions then
    match convertAll t (Split ',' (tokenValue tagParam)) with
    | Except.ok values => { v with options := values }
    | Except.error _ => v
  else v

/-- A field of a record with the value `getVal` resolves for it in place of
its content. -/
def bound (upper : Char → Char) (environ : List (Str × Str)) (keyPrefix : Str)
    (f : Field) : Field :=
  { f with content := (resolve upper environ keyPrefix f.descriptor).1 }

/-- Whether `getVal` binds the field: it returns a value and the nil error. -/
def binds (upper : Char → Char) (environ : List (Str × Str)) (keyPrefix : Str)
    (field : StructField) : Bool :=
  match getVal upper environ keyPrefix field with
  | Outcome.ret _ none => true
  | _ => false

/-- Whether `Process` writes the field: `getVal` binds it, its name is
exported and the value bound is assignable to its declared type. -/
def writes (upper : Char → Char) (environ : List (Str × Str)) (keyPrefix : Str)
    (f : Field) : Bool :=
  binds upper environ keyPrefix f.descriptor && f.exported &&
    assignable f.descriptor.Typ (resolve upper environ keyPrefix f.descriptor).1

/-! ## The tag parser -/

/-- What a run of the loop of `parse` that ends without error leaves behind:
the key of the last `key=` parameter, the receiver's `key` and `keyPrefix`
untouched, `required` set by any `required` parameter, and the default and the
options of the last `default=` and `options=` parameter, each converted
without error. -/
theorem parseLoop_ok (t : Kind) (toks : List Str) :
    ∀ (key : Str) (v : envVar) (key1 : Str) (v1 : envVar),
      parseLoop t toks key v = (key1, v1, none) →
      key1 = (lastValue paramKey toks).getD key ∧
      v1.key = v.key ∧ v1.keyPrefix = v.keyPrefix ∧
      v1.required = (v.required || toks.any (fun tp => decide (tokenParam tp = paramRequired))) ∧
      (match lastValue paramDefault toks with
        | none => v1.default_ = v.default_
        | some value => convert t value = (v1.default_, none)) ∧
      (match lastValue paramOptions toks with
        | none => v1.options = v.options
        | some value => convertAll t (Split ',' value) = Except.ok v1.options) := by
  have hkr : paramKey ≠ paramRequired := by decide
  have hkd : paramKey ≠ paramDefault := by decide
  have hko : paramKey ≠ paramOptions := by decide
  have hrd : paramRequired ≠ paramDefault := by decide
  have hro : paramRequired ≠ paramOptions := by decide
  have hdo : paramDefault ≠ paramOptions := by decide
  induction toks with
  | nil =>
    intro key v key1 v1 h
    simp only [parseLoop, Prod.mk.injEq, and_true] at h
    obtain ⟨rfl, rfl⟩ := h
    simp [lastValue]
  | cons tok rest ih =>
    intro key v key1 v1 h
    rw [parseLoop] at h
    by_cases h1 : tokenParam tok = paramKey
    · rw [if_pos h1] at h
      obtain ⟨a, b, c, d, e, f⟩ := ih _ _ _ _ h
      refine ⟨?_, b, c, ?_, ?_, ?_⟩
      · rw [a, lastValue]
        cases lastValue paramKey rest <;> simp [h1]
      · rw [d]; simp [h1, hkr]
      · rw [lastValue]
        cases hl : lastValue paramDefault rest <;> simp [hl, h1, hkd] at e ⊢ <;> exact e
      · rw [lastValue]
        cases hl : lastValue paramOptions rest <;> simp [hl, h1, hko] at f ⊢ <;> exact f
    · rw [if_neg h1] at h
      by_cases h2 : tokenParam tok = paramRequired
      · rw [if_pos h2] at h
        obtain ⟨a, b, c, d, e, f⟩ := ih _ _ _ _ h
        refine ⟨?_, b, c, ?_, ?_, ?_⟩
        · rw [a, lastValue]
          cases lastValue paramKey rest <;> simp [h1]
        · rw [d]; simp [h2]
        · rw [lastValue]
          cases hl : lastValue paramDefault rest <;> simp [hl, h2, hrd] at e ⊢ <;> exact e
        · rw [lastValue]
          cases hl : lastValue paramOptions rest <;> simp [hl, h2, hro] at f ⊢ <;> exact f
      · rw [if_neg h2] at h
        by_cases h3 : tokenParam tok = paramDefault
        · rw [if_pos h3] at h
          rcases hc : convert t (tokenValue tok) with ⟨d0, _ | err⟩
          · rw [hc] at h
            obtain ⟨a, b, c, d, e, f⟩ := ih _ _ _ _ h
            refine ⟨?_, b, c, ?_, ?_, ?_⟩
            · rw [a, lastValue]
              cases lastValue paramKey rest <;> simp [h1]
            · rw [d]; simp [h2]
            · rw [lastValue]
              cases hl : lastValue paramDefault rest <;> simp [hl, h3, hc] at e ⊢ <;> first | exact e | exact e.symm
            · rw [lastValue]
              cases hl : lastValue paramOptions rest <;> simp [hl, h3, hdo] at f ⊢ <;> exact f
          · rw [hc] at h
            simp at h
        · rw [if_neg h3] at h
          by_cases h4 : tokenParam tok = paramOptions
          · rw [if_pos h4] at h
            rcases hc : convertAll t (Split ',' (tokenValue tok)) with err | values
            · rw [hc] at h
              simp at h
            · rw [hc] at h
              obtain ⟨a, b, c, d, e, f⟩ := ih _ _ _ _ h
              refine ⟨?_, b, c, ?_, ?_, ?_⟩
              · rw [a, lastValue]
                cases lastValue paramKey rest <;> simp [h1]
              · rw [d]; simp [h2]
              · rw [lastValue]
                cases hl : lastValue paramDefault rest <;> simp [hl, h3] at e ⊢ <;> exact e
              · rw [lastValue]
                cases hl : lastValue paramOptions rest <;> simp [hl, h4, hc] at f ⊢ <;> first | exact f | exact f.symm
          · rw [if_neg h4] at h
            obtain ⟨a, b, c, d, e, f⟩ := ih _ _ _ _ h
            refine ⟨?_, b, c, ?_, ?_, ?_⟩
            · rw [a, lastValue]
              cases lastValue paramKey rest <;> simp [h1]
            · rw [d]; simp [h2]
            · rw [lastValue]
              cases hl : lastValue paramDefault rest <;> simp [hl, h3] at e ⊢ <;> exact e
            · rw [lastValue]
              cases hl : lastValue paramOptions rest <;> simp [hl, h4] at f ⊢ <;> exact f

/-- An empty tag has no parameter of a given non-empty name. -/
theorem lastValue_empty_tag (name : Str) (hname : name ≠ []) :
    lastValue name (Split ' ' []) = none := by
  have h : tokenParam [] = [] := by decide
  simp only [Split, lastValue, h]
  rw [if_neg (fun hc => hname hc.symm)]

/-- The binding policy of a field whose tag is not empty and parses without
error: its key is the derived key, and the rest is what the parameters say. -/
theorem newVar_of_parse_ok (upper : Char → Char) (keyPrefix : Str) (field : StructField)
    (htag : field.Tag ≠ []) (hparse : parseError upper keyPrefix field = none) :
    (newVar upper keyPrefix field).key = derivedKey upper keyPrefix field ∧
    (newVar upper keyPrefix field).required = hasRequired field.Tag ∧
    (match lastValue paramDefault (Split ' ' field.Tag) with
      | none => (newVar upper keyPrefix field).default_ = Value.invalid
      | some value => convert field.Typ value = ((newVar upper keyPrefix field).default_, none)) ∧
    (match lastValue paramOptions (Split ' ' field.Tag) with
      | none => (newVar upper keyPrefix field).options = []
      | some value =>
        convertAll field.Typ (Split ',' value) = Except.ok (newVar upper keyPrefix field).options) := by
  unfold parseError at hparse
  unfold newVar derivedKey hasRequired
  unfold parse at hparse ⊢
  rw [if_neg htag] at hparse ⊢
  rcases hl : parseLoop field.Typ (Split ' ' field.Tag) field.Name (emptyVar keyPrefix)
    with ⟨key1, v1, _ | err⟩
  · obtain ⟨a, _, c, d, e, f⟩ := parseLoop_ok _ _ _ _ _ _ hl
    simp only [emptyVar] at c d e f
    simp only [c, a, d, Bool.false_or, true_and]
    exact ⟨e, f⟩
  · rw [hl] at hparse
    simp at hparse

/-- The binding policy of a field with an empty tag is the literal
`&envVar{keyPrefix: keyPrefix}`: `parse` returns before it sets the key. -/
theorem newVar_of_empty_tag (upper : Char → Char) (keyPrefix : Str) (name : Str) (t : Kind) :
    newVar upper keyPrefix { Name := name, Typ := t, Tag := [] } = emptyVar keyPrefix := by
  simp [newVar, parse]

/-- A tag with a `required` parameter is not empty. -/
theorem tag_ne_nil_of_hasRequired (tag : Str) (h : hasRequired tag = true) : tag ≠ [] := by
  rintro rfl
  revert h
  decide

/-- A conversion of a non-empty string that succeeds gives a valid Value. -/
theorem convert_ne_invalid (t : Kind) (value : Str) (d : Value) (hne : value ≠ [])
    (h : convert t value = (d, none)) : d ≠ Value.invalid := by
  unfold convert at h
  rw [if_neg hne] at h
  cases t with
  | string => simp at h; rw [← h]; simp
  | int =>
    simp only [parseInt, if_neg hne] at h
    cases ha : Atoi value <;> simp [ha] at h
    rw [← h]; simp
  | bool =>
    simp only [parseBool, if_neg hne] at h
    cases ha : ParseBool value <;> simp [ha] at h
    rw [← h]; simp
  | other name => simp at h
  | defined typeName u =>
    cases u with
    | string => simp at h; rw [← h]; simp
    | int =>
      simp only [parseInt, if_neg hne] at h
      cases ha : Atoi value <;> simp [ha] at h
      rw [← h]; simp
    | bool =>
      simp only [parseBool, if_neg hne] at h
      cases ha : ParseBool value <;> simp [ha] at h
      rw [← h]; simp

/-- C1 (as amended). A field whose tag has the `required` flag and parses
without conversion error, in an environment where the derived key has no
entry or an empty one: `getVal` fails with the error `<key> required` naming
the derived key uppercase(prefix + key), whatever `default=` parameter the
tag also has and wherever it stands. -/
theorem getVal_required_missing (upper : Char → Char) (environ : List (Str × Str))
    (keyPrefix : Str) (field : StructField)
    (hreq : hasRequired field.Tag = true)
    (hparse : parseError upper keyPrefix field = none)
    (henv : Getenv environ (derivedKey upper keyPrefix field) = []) :
    getVal upper environ keyPrefix field =
      Outcome.ret Value.invalid (some (GoError.required (derivedKey upper keyPrefix field))) := by
  obtain ⟨hk, hr, _, _⟩ :=
    newVar_of_parse_ok upper keyPrefix field (tag_ne_nil_of_hasRequired _ hreq) hparse
  simp [getVal, resolve, hk, hr, hreq, henv, convert]

/-- The amended C1 at `Port int` tagged `default=7 required`, prefix `APP_`,
empty environment: the error is `APP_PORT required`. -/
theorem getVal_required_missing_witness :
    getVal upperASCII [] "APP_".toList
        { Name := "Port".toList, Typ := Kind.int, Tag := "default=7 required".toList } =
      Outcome.ret Value.invalid (some (GoError.required "APP_PORT".toList)) :=
  getVal_required_missing upperASCII [] "APP_".toList
    { Name := "Port".toList, Typ := Kind.int, Tag := "default=7 required".toList }
    (by decide) (by decide) (by decide)

/-- C1 as stated fails: `Port int` tagged `default=x required` has the
`required` flag and no environment entry, and `getVal` returns the value 0
and no error. -/
theorem getVal_required_missing_counterexample :
    ¬ ∀ (upper : Char → Char) (environ : List (Str × Str)) (keyPrefix : Str)
        (field : StructField),
        hasRequired field.Tag = true →
        Getenv environ (derivedKey upper keyPrefix field) = [] →
        getVal upper environ keyPrefix field =
          Outcome.ret Value.invalid
            (some (GoError.required (derivedKey upper keyPrefix field))) := by
  intro h
  have h1 := h upperASCII [] []
    { Name := "Port".toList, Typ := Kind.int, Tag := "default=x required".toList }
    (by decide) (by decide)
  revert h1
  decide

/-- C2 (as amended). A field whose tag parses without conversion error and has
no `required` parameter, in an environment where the derived key has no entry
or an empty one: the value resolved before the options check is the converted
VALUE of the last `default=VALUE` parameter when that VALUE is not empty, and
the zero value of the declared type when the tag has no `default` parameter or
the last one has an empty VALUE. -/
theorem resolve_default_or_zero (upper : Char → Char) (environ : List (Str × Str))
    (keyPrefix : Str) (field : StructField)
    (hparse : parseError upper keyPrefix field = none)
    (hreq : hasRequired field.Tag = false)
    (henv : Getenv environ (derivedKey upper keyPrefix field) = []) :
    (∀ (value : Str) (d : Value),
        lastValue paramDefault (Split ' ' field.Tag) = some value → value ≠ [] →
        convert field.Typ value = (d, none) →
        resolve upper environ keyPrefix field = (d, none)) ∧
    (lastValue paramDefault (Split ' ' field.Tag) = none ∨
        lastValue paramDefault (Split ' ' field.Tag) = some [] →
      resolve upper environ keyPrefix field = (Zero field.Typ, none)) := by
  by_cases htag : field.Tag = []
  · obtain ⟨name, t, tag⟩ := field
    simp only at htag
    subst htag
    have hl : lastValue paramDefault (Split ' ' []) = none :=
      lastValue_empty_tag _ (by decide)
    refine ⟨fun value d hv => ?_, fun _ => ?_⟩
    · rw [hl] at hv
      cases hv
    · simp [resolve, newVar_of_empty_tag, emptyVar, Getenv, convert]
  · obtain ⟨hk, hr, hd, _⟩ := newVar_of_parse_ok upper keyPrefix field htag hparse
    refine ⟨fun value d hv hne hc => ?_, fun hv => ?_⟩
    · rw [hv] at hd
      simp only at hd
      rw [hc] at hd
      have hd1 : (newVar upper keyPrefix field).default_ = d := by
        have := congrArg Prod.fst hd
        exact this.symm
      have hdv := convert_ne_invalid _ _ _ hne hc
      simp [resolve, hk, hr, hreq, henv, convert, hd1, hdv]
    · have hd1 : (newVar upper keyPrefix field).default_ = Value.invalid := by
        rcases hv with hv | hv
        · rw [hv] at hd
          exact hd
        · rw [hv] at hd
          simp only [convert] at hd
          have := congrArg Prod.fst hd
          exact this.symm
      simp [resolve, hk, hr, hreq, henv, convert, hd1]

/-- The amended C2 at `Port int` tagged `default=7`, no prefix, empty
environment: the resolved value is 7. -/
theorem resolve_default_or_zero_witness :
    resolve upperASCII [] []
        { Name := "Port".toList, Typ := Kind.int, Tag := "default=7".toList } =
      (Value.int 7, none) :=
  (resolve_default_or_zero upperASCII [] []
    { Name := "Port".toList, Typ := Kind.int, Tag := "default=7".toList }
    (by decide) (by decide) (by decide)).1 "7".toList (Value.int 7)
    (by decide) (by decide) (by decide)

/-- C2 as stated fails: the tag `default=7 default=` of `Port int` carries the
parameter `default=7`, whose VALUE is not empty and converts to 7, the field is
not required and the environment is empty, and the resolved value is 0. -/
theorem resolve_default_or_zero_counterexample :
    ¬ ∀ (upper : Char → Char) (environ : List (Str × Str)) (keyPrefix : Str)
        (field : StructField) (tagParam : Str) (d : Value),
        hasRequired field.Tag = false →
        Getenv environ (derivedKey upper keyPrefix field) = [] →
        tagParam ∈ Split ' ' field.Tag → tokenParam tagParam = paramDefault →
        tokenValue tagParam ≠ [] → convert field.Typ (tokenValue tagParam) = (d, none) →
        resolve upper environ keyPrefix field = (d, none) := by
  intro h
  have h1 := h upperASCII [] []
    { Name := "Port".toList, Typ := Kind.int, Tag := "default=7 default=".toList }
    "default=7".toList (Value.int 7)
    (by decide) (by decide) (by decide) (by decide) (by decide) (by decide)
  revert h1
  decide

/-- The outcome of the tag loop but for the key does not depend on the key
the loop starts from, which is the field's declared name. -/
theorem parseLoop_key_irrelevant (t : Kind) (toks : List Str) :
    ∀ (key key2 : Str) (v : envVar),
      (parseLoop t toks key v).2 = (parseLoop t toks key2 v).2 := by
  induction toks with
  | nil => intro key key2 v; rfl
  | cons tok rest ih =>
    intro key key2 v
    rw [parseLoop, parseLoop]
    by_cases h1 : tokenParam tok = paramKey
    · rw [if_pos h1, if_pos h1]
    · rw [if_neg h1, if_neg h1]
      by_cases h2 : tokenParam tok = paramRequired
      · rw [if_pos h2, if_pos h2]
        exact ih _ _ _
      · rw [if_neg h2, if_neg h2]
        by_cases h3 : tokenParam tok = paramDefault
        · rw [if_pos h3, if_pos h3]
          rcases convert t (tokenValue tok) with ⟨d0, _ | err⟩
          · exact ih _ _ _
          · rfl
        · rw [if_neg h3, if_neg h3]
          by_cases h4 : tokenParam tok = paramOptions
          · rw [if_pos h4, if_pos h4]
            rcases convertAll t (Split ',' (tokenValue tok)) with err | values
            · rfl
            · exact ih _ _ _
          · rw [if_neg h4, if_neg h4]
            exact ih _ _ _

/-- C5 (as amended). A field whose tag has a `key=NAME` parameter, NAME being
the value of the last one, and parses without conversion error: the environment variable
`getVal` looks up is uppercase(prefix + NAME), the upper-casing applied to the
whole composed string and so to the prefix too, and the field's declared name
plays no part in the result of `getVal`. -/
theorem key_override (upper : Char → Char) (keyPrefix : Str) (field : StructField) (NAME : Str)
    (hkey : lastValue paramKey (Split ' ' field.Tag) = some NAME)
    (hparse : parseError upper keyPrefix field = none) :
    (newVar upper keyPrefix field).key = ToUpper upper (keyPrefix ++ NAME) ∧
    ToUpper upper (keyPrefix ++ NAME) = ToUpper upper keyPrefix ++ ToUpper upper NAME ∧
    ∀ (environ : List (Str × Str)) (name2 : Str),
      getVal upper environ keyPrefix { field with Name := name2 } =
        getVal upper environ keyPrefix field := by
  have htag : field.Tag ≠ [] := by
    intro h0
    rw [h0, lastValue_empty_tag _ (by decide)] at hkey
    cases hkey
  obtain ⟨hk, _, _, _⟩ := newVar_of_parse_ok upper keyPrefix field htag hparse
  have hnew : ∀ name2 : Str,
      newVar upper keyPrefix { field with Name := name2 } = newVar upper keyPrefix field := by
    intro name2
    have hirr := parseLoop_key_irrelevant field.Typ (Split ' ' field.Tag) name2 field.Name
      (emptyVar keyPrefix)
    unfold parseError at hparse
    unfold newVar
    unfold parse at hparse ⊢
    simp only [if_neg htag] at hparse ⊢
    rcases hl : parseLoop field.Typ (Split ' ' field.Tag) field.Name (emptyVar keyPrefix)
      with ⟨key1, v1, _ | err⟩
    · rcases hl2 : parseLoop field.Typ (Split ' ' field.Tag) name2 (emptyVar keyPrefix)
        with ⟨key2, v2, e2⟩
      rw [hl, hl2] at hirr
      simp only [Prod.mk.injEq] at hirr
      obtain ⟨rfl, rfl⟩ := hirr
      obtain ⟨a, _⟩ := parseLoop_ok _ _ _ _ _ _ hl
      obtain ⟨a2, _⟩ := parseLoop_ok _ _ _ _ _ _ hl2
      rw [hkey] at a a2
      simp only [Option.getD_some] at a a2
      rw [a, a2]
    · rw [hl] at hparse
      simp at hparse
  refine ⟨?_, ?_, ?_⟩
  · rw [hk, derivedKey, hkey]
    rfl
  · simp [ToUpper]
  · intro environ name2
    simp only [getVal, resolve, hnew]

/-- The amended C5 at the field `Addr` tagged `key=port`, prefix `app_`: the variable
looked up is `APP_PORT`. -/
theorem key_override_witness :
    (newVar upperASCII "app_".toList
        { Name := "Addr".toList, Typ := Kind.int, Tag := "key=port".toList }).key =
      "APP_PORT".toList :=
  ((key_override upperASCII "app_".toList
    { Name := "Addr".toList, Typ := Kind.int, Tag := "key=port".toList } "port".toList
    (by decide) (by decide)).1).trans (by decide)

/-- C5 as stated fails: the tag `key=a key=b` parses without error and
contains the parameter `key=a`, and the variable `getVal` looks up is `B`, the
name of the last `key=` parameter, not `A`. -/
theorem key_override_counterexample :
    ¬ ∀ (upper : Char → Char) (keyPrefix : Str) (field : StructField) (tagParam : Str),
        tagParam ∈ Split ' ' field.Tag → tokenParam tagParam = paramKey →
        parseError upper keyPrefix field = none →
        (newVar upper keyPrefix field).key =
          ToUpper upper (keyPrefix ++ tokenValue tagParam) := by
  intro h
  have h1 := h upperASCII []
    { Name := "Port".toList, Typ := Kind.int, Tag := "key=a key=b".toList }
    "key=a".toList (by decide) (by decide) (by decide)
  revert h1
  decide

/-! ## The converter -/

/-- The digits loop returns the number the digits denote, on top of what it
starts from, and fails exactly when some character is not a decimal digit. -/
theorem parseDigits_eq (ds : Str) :
    ∀ n : Nat, parseDigits ds n =
      if ds.all (fun c => decide (48 ≤ c.toNat ∧ c.toNat ≤ 57)) = true then
        some (n * 10 ^ ds.length + decimalValue ds)
      else none := by
  induction ds with
  | nil => intro n; simp [parseDigits, decimalValue]
  | cons c cs ih =>
    intro n
    rw [parseDigits]
    by_cases hc : 48 ≤ c.toNat ∧ c.toNat ≤ 57
    · rw [if_pos hc, ih]
      by_cases hall : cs.all (fun c => decide (48 ≤ c.toNat ∧ c.toNat ≤ 57)) = true
      · have hall2 : (c :: cs).all (fun c => decide (48 ≤ c.toNat ∧ c.toNat ≤ 57)) = true := by
          simp only [List.all_cons, hall, Bool.and_true, decide_eq_true_eq]
          exact hc
        rw [if_pos hall, if_pos hall2]
        simp only [decimalValue, List.length_cons, Option.some.injEq]
        ring
      · have hall2 : ¬ (c :: cs).all (fun c => decide (48 ≤ c.toNat ∧ c.toNat ≤ 57)) = true := by
          simp only [List.all_cons, Bool.and_eq_true, not_and]
          exact fun _ => hall
        rw [if_neg hall, if_neg hall2]
    · have hall2 : ¬ (c :: cs).all (fun c => decide (48 ≤ c.toNat ∧ c.toNat ≤ 57)) = true := by
        simp only [List.all_cons, Bool.and_eq_true, decide_eq_true_eq, not_and]
        exact fun h => absurd h hc
      rw [if_neg hc, if_neg hall2]

/-- The body of `strconv.Atoi`, after the sign: empty or not a numeral is an
error, a numeral gives its value. -/
theorem parseDigits_body (body : Str) :
    (if body = [] then (none : Option Nat) else parseDigits body 0) =
      if isDecimal body = true then some (decimalValue body) else none := by
  by_cases hb : body = []
  · subst hb
    rfl
  · have he : body.isEmpty = false := by
      cases body with
      | nil => exact absurd rfl hb
      | cons c cs => rfl
    rw [if_neg hb, parseDigits_eq]
    simp only [isDecimal, he, Bool.not_false, Bool.true_and, zero_mul, zero_add]

/-- The bound of a negative `int` literal, on its absolute value. -/
theorem int_range_neg (m : Nat) :
    (-(2 : Int) ^ 63 ≤ -(m : Int) ∧ -(m : Int) < (2 : Int) ^ 63) ↔ m ≤ 2 ^ 63 := by
  constructor
  · intro h; omega
  · intro h; constructor <;> omega

/-- The bound of a non-negative `int` literal. -/
theorem int_range_pos (m : Nat) :
    (-(2 : Int) ^ 63 ≤ (m : Int) ∧ (m : Int) < (2 : Int) ^ 63) ↔ m < 2 ^ 63 := by
  constructor
  · intro h; omega
  · intro h; constructor <;> omega

/-- `strconv.Atoi` accepts exactly the valid literals of `int`, with the value
they denote. -/
theorem Atoi_eq (s : Str) :
    Atoi s = if isIntLiteral s = true then intLiteralValue s else none := by
  cases s with
  | nil => rfl
  | cons c cs =>
    by_cases hm : c = '-'
    · subst hm
      have hA : Atoi ('-' :: cs) =
          match (if cs = [] then (none : Option Nat) else parseDigits cs 0) with
          | none => none
          | some n => if n ≤ 2 ^ 63 then some (-(n : Int)) else none := by
        unfold Atoi
        by_cases hb : cs = []
        · simp [hb]
        · simp [hb]
      have hI : intLiteralValue ('-' :: cs) =
          if isDecimal cs = true then some (-(decimalValue cs : Int)) else none := by
        simp [intLiteralValue]
      rw [hA, parseDigits_body]
      unfold isIntLiteral
      rw [hI]
      by_cases hd : isDecimal cs = true
      · simp only [hd, if_true]
        by_cases hr : decimalValue cs ≤ 2 ^ 63
        · rw [if_pos hr, if_pos]
          exact decide_eq_true ((int_range_neg _).2 hr)
        · rw [if_neg hr, if_neg]
          intro h
          exact hr ((int_range_neg _).1 (of_decide_eq_true h))
      · simp only [hd]
        rfl
    · by_cases hp : c = '+'
      · subst hp
        have hA : Atoi ('+' :: cs) =
            match (if cs = [] then (none : Option Nat) else parseDigits cs 0) with
            | none => none
            | some n => if n < 2 ^ 63 then some (n : Int) else none := by
          unfold Atoi
          by_cases hb : cs = []
          · simp [hb]
          · simp [hb]
        have hI : intLiteralValue ('+' :: cs) =
            if isDecimal cs = true then some (decimalValue cs : Int) else none := by
          simp [intLiteralValue]
        rw [hA, parseDigits_body]
        unfold isIntLiteral
        rw [hI]
        by_cases hd : isDecimal cs = true
        · simp only [hd, if_true]
          by_cases hr : decimalValue cs < 2 ^ 63
          · rw [if_pos hr, if_pos]
            exact decide_eq_true ((int_range_pos _).2 hr)
          · rw [if_neg hr, if_neg]
            intro h
            exact hr ((int_range_pos _).1 (of_decide_eq_true h))
        · simp only [hd]
          rfl
      · have hA : Atoi (c :: cs) =
            match (if c :: cs = [] then (none : Option Nat) else parseDigits (c :: cs) 0) with
            | none => none
            | some n => if n < 2 ^ 63 then some (n : Int) else none := by
          unfold Atoi
          simp [hm, hp]
        have hI : intLiteralValue (c :: cs) =
            if isDecimal (c :: cs) = true then some (decimalValue (c :: cs) : Int) else none := by
          simp [intLiteralValue, hm, hp]
        rw [hA, parseDigits_body]
        unfold isIntLiteral
        rw [hI]
        by_cases hd : isDecimal (c :: cs) = true
        · simp only [hd, if_true]
          by_cases hr : decimalValue (c :: cs) < 2 ^ 63
          · rw [if_pos hr, if_pos]
            exact decide_eq_true ((int_range_pos _).2 hr)
          · rw [if_neg hr, if_neg]
            intro h
            exact hr ((int_range_pos _).1 (of_decide_eq_true h))
        · simp only [hd]
          rfl

/-- The character of a decimal digit has the code of that digit. -/
theorem digitChar_toNat (d : Nat) (hd : d < 10) : (digitChar d).toNat = 48 + d := by
  interval_cases d <;> rfl

/-- A numeral with one more digit at its end denotes ten times its value plus
that digit. -/
theorem decimalValue_append (xs : Str) (c : Char) :
    decimalValue (xs ++ [c]) = decimalValue xs * 10 + (c.toNat - 48) := by
  induction xs with
  | nil => simp [decimalValue]
  | cons x xs ih =>
    have hlen : (xs ++ [c]).length = xs.length + 1 := by simp
    show (x.toNat - 48) * 10 ^ (xs ++ [c]).length + decimalValue (xs ++ [c]) =
      ((x.toNat - 48) * 10 ^ xs.length + decimalValue xs) * 10 + (c.toNat - 48)
    rw [ih, hlen]
    ring

/-- The rendering of a natural number is a numeral that denotes it. -/
theorem formatNatFuel_spec (fuel : Nat) :
    ∀ n : Nat, n < fuel →
      formatNatFuel fuel n ≠ [] ∧
      (∀ c ∈ formatNatFuel fuel n, 48 ≤ c.toNat ∧ c.toNat ≤ 57) ∧
      decimalValue (formatNatFuel fuel n) = n := by
  induction fuel with
  | zero => intro n h; omega
  | succ fuel ih =>
    intro n h
    rw [formatNatFuel]
    by_cases h10 : n < 10
    · rw [if_pos h10]
      have hc := digitChar_toNat n h10
      refine ⟨by simp, ?_, ?_⟩
      · intro c hmem
        simp only [List.mem_singleton] at hmem
        subst hmem
        omega
      · simp only [decimalValue, hc, List.length_nil]
        omega
    · rw [if_neg h10]
      have hlt : n / 10 < fuel := by omega
      obtain ⟨_, hdig, hval⟩ := ih (n / 10) hlt
      have hc := digitChar_toNat (n % 10) (Nat.mod_lt _ (by decide))
      refine ⟨by simp, ?_, ?_⟩
      · intro c hmem
        rcases List.mem_append.1 hmem with hmem | hmem
        · exact hdig c hmem
        · simp only [List.mem_singleton] at hmem
          subst hmem
          omega
      · rw [decimalValue_append, hval, hc]
        omega

/-- The rendering of a natural number below 2^63 is read back by `strconv.Atoi`. -/
theorem Atoi_formatNat (n : Nat) (hn : n < 2 ^ 63) : Atoi (formatNat n) = some (n : Int) := by
  obtain ⟨hne, hdig, hval⟩ := formatNatFuel_spec (n + 1) n (Nat.lt_succ_self n)
  have hdec : isDecimal (formatNat n) = true := by
    unfold formatNat isDecimal
    cases hf : formatNatFuel (n + 1) n with
    | nil => exact absurd hf hne
    | cons c cs =>
      rw [hf] at hdig
      simp only [List.isEmpty_cons, Bool.not_false, Bool.true_and, List.all_eq_true,
        decide_eq_true_eq]
      exact hdig
  rw [Atoi_eq]
  unfold isIntLiteral
  unfold formatNat at hdec ⊢
  cases hf : formatNatFuel (n + 1) n with
  | nil => exact absurd hf hne
  | cons c cs =>
    rw [hf] at hdig hval hdec
    have hc := hdig c (List.mem_cons_self c cs)
    have hm : c ≠ '-' := by
      rintro rfl
      revert hc
      decide
    have hp : c ≠ '+' := by
      rintro rfl
      revert hc
      decide
    have hI : intLiteralValue (c :: cs) = some (n : Int) := by
      simp only [intLiteralValue, if_neg hm, if_neg hp, hdec, if_true, hval]
    rw [hI]
    simp only
    rw [if_pos]
    exact decide_eq_true ((int_range_pos n).2 hn)

/-- The rendering of a negative integer not below -2^63 is read back by
`strconv.Atoi`. -/
theorem Atoi_neg_formatNat (m : Nat) (hm : m ≤ 2 ^ 63) :
    Atoi ('-' :: formatNat m) = some (-(m : Int)) := by
  obtain ⟨hne, hdig, hval⟩ := formatNatFuel_spec (m + 1) m (Nat.lt_succ_self m)
  have hdec : isDecimal (formatNat m) = true := by
    unfold formatNat isDecimal
    cases hf : formatNatFuel (m + 1) m with
    | nil => exact absurd hf hne
    | cons c cs =>
      rw [hf] at hdig
      simp only [List.isEmpty_cons, Bool.not_false, Bool.true_and, List.all_eq_true,
        decide_eq_true_eq]
      exact hdig
  have hI : intLiteralValue ('-' :: formatNat m) = some (-(m : Int)) := by
    unfold formatNat at hdec ⊢
    simp only [intLiteralValue, if_true, hdec, hval]
  rw [Atoi_eq]
  unfold isIntLiteral
  rw [hI]
  simp only
  rw [if_pos]
  exact decide_eq_true ((int_range_neg m).2 hm)

/-- C8. Integer conversion round-trips: for every integer `n` of the signed
64-bit range, `convert` at the declared type int and the canonical base-10
rendering of `n` (a leading `-` when negative, no leading zeros) succeeds with
the value `n`. -/
theorem convert_int_roundtrip (n : Int) (hlo : -(2 : Int) ^ 63 ≤ n) (hhi : n < (2 : Int) ^ 63) :
    convert Kind.int (formatInt n) = (Value.int n, none) := by
  have hA : Atoi (formatInt n) = some n := by
    unfold formatInt
    by_cases hneg : n < 0
    · rw [if_pos hneg, Atoi_neg_formatNat n.natAbs (by omega)]
      congr 1
      omega
    · rw [if_neg hneg, Atoi_formatNat n.natAbs (by omega)]
      congr 1
      omega
  have hne : formatInt n ≠ [] := by
    intro h0
    rw [h0] at hA
    have hnil : Atoi [] = none := rfl
    rw [hnil] at hA
    cases hA
  simp only [convert, if_neg hne, parseInt, hA]

/-- C8 at 42 and at the least integer of the range: `convert(int, "42")` is 42
and `convert(int, "-9223372036854775808")` is -2^63. -/
theorem convert_int_roundtrip_witness :
    convert Kind.int "42".toList = (Value.int 42, none) ∧
    convert Kind.int "-9223372036854775808".toList = (Value.int (-9223372036854775808), none) :=
  ⟨(by decide : formatInt 42 = "42".toList) ▸
      convert_int_roundtrip 42 (by decide) (by decide),
    (by decide : formatInt (-9223372036854775808) = "-9223372036854775808".toList) ▸
      convert_int_roundtrip (-9223372036854775808) (by decide) (by decide)⟩

/-- C7. For every declared type, `convert` at the empty string returns the
zero Value `reflect.ValueOf(nil)`, the sentinel of an absent entry, and the nil
error: not a conversion error, and not the zero value of the type. -/
theorem convert_empty (t : Kind) :
    convert t [] = (Value.invalid, none) ∧ (convert t []).1 ≠ Zero t := by
  refine ⟨rfl, ?_⟩
  cases t <;> simp [convert, Zero]

/-- C9. Boolean conversion accepts exactly the twelve forms of the standard
boolean parser: for a non-empty `s`, `convert` at the declared type bool
succeeds iff `s` is one of them, with true for `1 t T TRUE true True` and false
for `0 f F FALSE false False`; any other string, `tRUE` and `yes` among them,
is a conversion error. -/
theorem convert_bool_forms (s : Str) (hne : s ≠ []) :
    ((convert Kind.bool s).2 = none ↔ s ∈ trueForms ++ falseForms) ∧
    (s ∈ trueForms → convert Kind.bool s = (Value.bool true, none)) ∧
    (s ∈ falseForms → convert Kind.bool s = (Value.bool false, none)) ∧
    (s ∉ trueForms ++ falseForms →
      convert Kind.bool s =
        (Value.invalid, some (GoError.conversion (conversionError s "bool".toList)))) ∧
    "tRUE".toList ∉ trueForms ++ falseForms ∧ "yes".toList ∉ trueForms ++ falseForms := by
  have hP : ParseBool s =
      if s ∈ trueForms then some true else if s ∈ falseForms then some false else none := rfl
  have hdisj : ∀ x ∈ falseForms, x ∉ trueForms := by decide
  have hc : convert Kind.bool s =
      match ParseBool s with
      | none => (Value.invalid, some (GoError.conversion (conversionError s "bool".toList)))
      | some b => (Value.bool b, none) := by
    simp only [convert, if_neg hne, parseBool]
  rw [hc, hP]
  by_cases ht : s ∈ trueForms
  · refine ⟨?_, ?_, ?_, ?_, by decide, by decide⟩
    · simp [ht]
    · intro _; simp [ht]
    · intro hf; exact absurd ht (hdisj s hf)
    · intro hn; exact absurd (List.mem_append_left _ ht) hn
  · by_cases hf : s ∈ falseForms
    · refine ⟨?_, ?_, ?_, ?_, by decide, by decide⟩
      · simp [ht, hf]
      · intro h; exact absurd h ht
      · intro _; simp [ht, hf]
      · intro hn; exact absurd (List.mem_append_right _ hf) hn
    · refine ⟨?_, ?_, ?_, ?_, by decide, by decide⟩
      · simp [ht, hf]
      · intro h; exact absurd h ht
      · intro h; exact absurd h hf
      · intro _; simp [ht, hf]

/-- C9 at `true`: `convert(bool, "true")` is true. -/
theorem convert_bool_forms_witness :
    convert Kind.bool "true".toList = (Value.bool true, none) :=
  (convert_bool_forms "true".toList (by decide)).2.1 (by decide)

/-- C10. For every non-empty string `s` that is not a valid literal of the
target type (int: not an optionally signed base-10 numeral within the signed
64-bit range; bool: not one of the twelve boolean forms), `convert` returns a
conversion error whose `Value` is `s` and whose `Type` is `int` or `bool`, and
whose text is `could not convert value "<s>" into <type> type`. -/
theorem convert_invalid_literal (s : Str) (hne : s ≠ []) :
    (isIntLiteral s = false →
      convert Kind.int s =
        (Value.invalid, some (GoError.conversion { Value := s, Typ := "int".toList })) ∧
      errConversion.Error { Value := s, Typ := "int".toList } =
        "could not convert value \"".toList ++ s ++ "\" into int type".toList) ∧
    (s ∉ trueForms ++ falseForms →
      convert Kind.bool s =
        (Value.invalid, some (GoError.conversion { Value := s, Typ := "bool".toList })) ∧
      errConversion.Error { Value := s, Typ := "bool".toList } =
        "could not convert value \"".toList ++ s ++ "\" into bool type".toList) := by
  constructor
  · intro hlit
    constructor
    · have hA : Atoi s = none := by
        rw [Atoi_eq, hlit]
        rfl
      simp only [convert, if_neg hne, parseInt, hA, conversionError]
    · simp [errConversion.Error]
  · intro hb
    constructor
    · have hP : ParseBool s =
          if s ∈ trueForms then some true else if s ∈ falseForms then some false else none := rfl
      have ht : s ∉ trueForms := fun h => hb (List.mem_append_left _ h)
      have hf : s ∉ falseForms := fun h => hb (List.mem_append_right _ h)
      have hN : ParseBool s = none := by
        rw [hP, if_neg ht, if_neg hf]
      simp only [convert, if_neg hne, parseBool, hN, conversionError]
    · simp [errConversion.Error]

/-- C10 at `12a` for int and `yes` for bool. -/
theorem convert_invalid_literal_witness :
    (convert Kind.int "12a".toList =
        (Value.invalid, some (GoError.conversion { Value := "12a".toList, Typ := "int".toList })) ∧
      errConversion.Error { Value := "12a".toList, Typ := "int".toList } =
        "could not convert value \"".toList ++ "12a".toList ++ "\" into int type".toList) ∧
    (convert Kind.bool "yes".toList =
        (Value.invalid, some (GoError.conversion { Value := "yes".toList, Typ := "bool".toList })) ∧
      errConversion.Error { Value := "yes".toList, Typ := "bool".toList } =
        "could not convert value \"".toList ++ "yes".toList ++ "\" into bool type".toList) :=
  ⟨(convert_invalid_literal "12a".toList (by decide)).1 (by decide),
    (convert_invalid_literal "yes".toList (by decide)).2 (by decide)⟩

/-! ## The binder at the inputs where the code departs from the specification -/

/-- C3 on the code: the tag `options=a,,b` of a string field parses to a list
with an absent element, and with the entry `z` the membership check reaches
that element and `getVal` panics instead of returning the error `not in
allowed options`; so do the tag `options=` and an unset entry. The entry `a`,
found before the absent element, is accepted. -/
theorem getVal_options_absent_element_panics :
    (newVar upperASCII []
        { Name := "Mode".toList, Typ := Kind.string, Tag := "options=a,,b".toList }).options =
      [Value.string "a".toList, Value.invalid, Value.string "b".toList] ∧
    resolve upperASCII [("MODE".toList, "z".toList)] []
        { Name := "Mode".toList, Typ := Kind.string, Tag := "options=a,,b".toList } =
      (Value.string "z".toList, none) ∧
    getVal upperASCII [("MODE".toList, "z".toList)] []
        { Name := "Mode".toList, Typ := Kind.string, Tag := "options=a,,b".toList } =
      Outcome.panic ∧
    getVal upperASCII [] []
        { Name := "Mode".toList, Typ := Kind.string, Tag := "options=".toList } =
      Outcome.panic ∧
    getVal upperASCII [("MODE".toList, "a".toList)] []
        { Name := "Mode".toList, Typ := Kind.string, Tag := "options=a,,b".toList } =
      Outcome.ret (Value.string "a".toList) none := by
  decide

/-- C4 on the code: for the field `Port int` with an empty tag and the prefix
`APP_`, the derived key is `APP_PORT`, but `parse` returns before it sets the
key, `getVal` looks up the empty name and yields 0 although `APP_PORT=8080` is
set. With any parameter in the tag, here `x`, the entry is bound. -/
theorem getVal_empty_tag_ignores_entry :
    derivedKey upperASCII "APP_".toList
        { Name := "Port".toList, Typ := Kind.int, Tag := [] } = "APP_PORT".toList ∧
    (newVar upperASCII "APP_".toList
        { Name := "Port".toList, Typ := Kind.int, Tag := [] }).key = [] ∧
    getVal upperASCII [("APP_PORT".toList, "8080".toList)] "APP_".toList
        { Name := "Port".toList, Typ := Kind.int, Tag := [] } =
      Outcome.ret (Value.int 0) none ∧
    getVal upperASCII [("APP_PORT".toList, "8080".toList)] "APP_".toList
        { Name := "Port".toList, Typ := Kind.int, Tag := "x".toList } =
      Outcome.ret (Value.int 8080) none := by
  decide

/-- C6 on the code: for `Port int` tagged `default=abc`, and tagged
`options=1,x`, `parse` returns the conversion error of `abc`, and of `x`, but
`getVal` drops it and returns the value 0 with a nil error. -/
theorem getVal_drops_parse_error :
    parseError upperASCII []
        { Name := "Port".toList, Typ := Kind.int, Tag := "default=abc".toList } =
      some (GoError.conversion { Value := "abc".toList, Typ := "int".toList }) ∧
    getVal upperASCII [] []
        { Name := "Port".toList, Typ := Kind.int, Tag := "default=abc".toList } =
      Outcome.ret (Value.int 0) none ∧
    parseError upperASCII []
        { Name := "Port".toList, Typ := Kind.int, Tag := "options=1,x".toList } =
      some (GoError.conversion { Value := "x".toList, Typ := "int".toList }) ∧
    getVal upperASCII [] []
        { Name := "Port".toList, Typ := Kind.int, Tag := "options=1,x".toList } =
      Outcome.ret (Value.int 0) none := by
  decide

/-! ## The options check over a list without absent element -/

/-- The zero value of a defined type is in no options list: for `Level` of the
type `type Level int` tagged `key=LVL options=0,1`, with `LVL` unset, the value
resolved is the zero of `Level` and `getVal` rejects it, while the entry `0`
is accepted. -/
theorem getVal_defined_zero_not_in_options :
    getVal upperASCII [] []
        { Name := "Level".toList, Typ := Kind.defined "Level".toList Underlying.int,
          Tag := "key=LVL options=0,1".toList } =
      Outcome.ret (Value.zero "Level".toList)
        (some (GoError.notAllowed "LVL".toList (Value.zero "Level".toList)
          [Value.int 0, Value.int 1])) ∧
    getVal upperASCII [("LVL".toList, "0".toList)] []
        { Name := "Level".toList, Typ := Kind.defined "Level".toList Underlying.int,
          Tag := "key=LVL options=0,1".toList } =
      Outcome.ret (Value.int 0) none := by
  decide

/-- Over options that are all valid Values, the membership check of a valid
Value does not panic and decides membership. -/
theorem optionsContains_valid (options : List Value) (s : Value) (hs : s ≠ Value.invalid)
    (hall : ∀ o ∈ options, o ≠ Value.invalid) :
    optionsContains options s = some (decide (s ∈ options)) := by
  induction options with
  | nil => simp [optionsContains]
  | cons v rest ih =>
    have hv : v ≠ Value.invalid := hall v (List.mem_cons_self v rest)
    have ih1 := ih (fun o ho => hall o (List.mem_cons_of_mem v ho))
    rw [optionsContains, if_neg (by simp [hs, hv])]
    by_cases hsv : s = v
    · rw [if_pos hsv]
      simp [hsv]
    · rw [if_neg hsv, ih1]
      simp [hsv]

/-- The zero value of a type is a valid Value. -/
theorem Zero_ne_invalid (t : Kind) : Zero t ≠ Value.invalid := by
  cases t <;> simp [Zero]

/-- A value `getVal` resolves without error is a valid Value. -/
theorem resolve_ne_invalid (upper : Char → Char) (environ : List (Str × Str)) (keyPrefix : Str)
    (field : StructField) (value : Value)
    (h : resolve upper environ keyPrefix field = (value, none)) : value ≠ Value.invalid := by
  unfold resolve at h
  rcases hc : convert field.Typ (Getenv environ (newVar upper keyPrefix field).key)
    with ⟨v0, _ | err⟩
  · rw [hc] at h
    simp only at h
    by_cases hv0 : v0 = Value.invalid
    · rw [if_pos hv0] at h
      by_cases hr : (newVar upper keyPrefix field).required = true
      · rw [if_pos hr] at h
        simp at h
      · rw [if_neg hr] at h
        by_cases hd : (newVar upper keyPrefix field).default_ ≠ Value.invalid
        · rw [if_pos hd] at h
          simp only [Prod.mk.injEq, and_true] at h
          rw [← h]
          exact hd
        · rw [if_neg hd] at h
          simp only [Prod.mk.injEq, and_true] at h
          rw [← h]
          exact Zero_ne_invalid _
    · rw [if_neg hv0] at h
      simp only [Prod.mk.injEq, and_true] at h
      rw [← h]
      exact hv0
  · rw [hc] at h
    simp at h

/-- The options check of `getVal` when the parsed options list is not empty
and has no absent element: a resolved value that is in the list is returned,
and any other is rejected with the error `not in allowed options` that carries
the key, the value and the list, wherever the value was resolved from. -/
theorem getVal_options_check (upper : Char → Char) (environ : List (Str × Str))
    (keyPrefix : Str) (field : StructField) (value : Value)
    (hopt : (newVar upper keyPrefix field).options ≠ [])
    (hall : ∀ o ∈ (newVar upper keyPrefix field).options, o ≠ Value.invalid)
    (hres : resolve upper environ keyPrefix field = (value, none)) :
    getVal upper environ keyPrefix field =
      if value ∈ (newVar upper keyPrefix field).options then Outcome.ret value none
      else Outcome.ret value (some (GoError.notAllowed (newVar upper keyPrefix field).key value
        (newVar upper keyPrefix field).options)) := by
  have hv := resolve_ne_invalid upper environ keyPrefix field value hres
  have hlen : (newVar upper keyPrefix field).options.length > 0 :=
    List.length_pos.2 hopt
  simp only [getVal, hres, checkOptions, if_pos hlen, optionsContains_valid _ _ hv hall]
  by_cases hm : value ∈ (newVar upper keyPrefix field).options
  · simp [hm]
  · simp [hm]

/-! ## Conversion errors of the binder -/

/-- A conversion that fails was given a non-empty string, returns the zero
Value, and its error is an `errConversion` that carries the string. -/
theorem convert_error (t : Kind) (raw : Str) (v : Value) (err : GoError)
    (h : convert t raw = (v, some err)) :
    raw ≠ [] ∧ v = Value.invalid ∧
      ∃ typ : Str, err = GoError.conversion { Value := raw, Typ := typ } := by
  have hne : raw ≠ [] := by
    rintro rfl
    simp [convert] at h
  refine ⟨hne, ?_⟩
  unfold convert at h
  rw [if_neg hne] at h
  cases t with
  | string => simp at h
  | int =>
    simp only [parseInt, if_neg hne] at h
    cases ha : Atoi raw with
    | none =>
      simp only [ha, Prod.mk.injEq, Option.some.injEq] at h
      exact ⟨h.1.symm, "int".toList, h.2.symm⟩
    | some i => simp [ha] at h
  | bool =>
    simp only [parseBool, if_neg hne] at h
    cases ha : ParseBool raw with
    | none =>
      simp only [ha, Prod.mk.injEq, Option.some.injEq] at h
      exact ⟨h.1.symm, "bool".toList, h.2.symm⟩
    | some b => simp [ha] at h
  | other name =>
    simp only [Prod.mk.injEq, Option.some.injEq] at h
    exact ⟨h.1.symm, "unsupported ".toList ++ (Kind.other name).name, h.2.symm⟩
  | defined typeName u =>
    cases u with
    | string => simp at h
    | int =>
      simp only [parseInt, if_neg hne] at h
      cases ha : Atoi raw with
      | none =>
        simp only [ha, Prod.mk.injEq, Option.some.injEq] at h
        exact ⟨h.1.symm, "int".toList, h.2.symm⟩
      | some i => simp [ha] at h
    | bool =>
      simp only [parseBool, if_neg hne] at h
      cases ha : ParseBool raw with
      | none =>
        simp only [ha, Prod.mk.injEq, Option.some.injEq] at h
        exact ⟨h.1.symm, "bool".toList, h.2.symm⟩
      | some b => simp [ha] at h

/-- A conversion to a type of another kind succeeds on the empty string only,
with the zero Value. -/
theorem convert_other_ok (name value : Str) (d : Value)
    (h : convert (Kind.other name) value = (d, none)) : d = Value.invalid := by
  by_cases hv : value = []
  · rw [hv] at h
    simp only [convert, if_true, Prod.mk.injEq, and_true] at h
    exact h.symm
  · simp only [convert, if_neg hv, Prod.mk.injEq] at h
    cases h.2

/-- Under the key `getVal` looks up, a non-empty entry of a field whose
declared type is of another kind makes `getVal` fail with the conversion error
that names the type as `unsupported <kind>`. -/
theorem getVal_unsupported_at_key (upper : Char → Char) (environ : List (Str × Str))
    (keyPrefix : Str) (field : StructField) (name raw : Str)
    (htype : field.Typ = Kind.other name)
    (henv : Getenv environ (newVar upper keyPrefix field).key = raw)
    (hraw : raw ≠ []) :
    convert field.Typ raw =
      (Value.invalid,
        some (GoError.conversion { Value := raw, Typ := "unsupported ".toList ++ name })) ∧
    getVal upper environ keyPrefix field =
      Outcome.ret Value.invalid
        (some (GoError.conversion { Value := raw, Typ := "unsupported ".toList ++ name })) := by
  have hc : convert field.Typ raw =
      (Value.invalid,
        some (GoError.conversion { Value := raw, Typ := "unsupported ".toList ++ name })) := by
    rw [htype]
    simp only [convert, if_neg hraw, conversionError, Kind.name]
  refine ⟨hc, ?_⟩
  simp only [getVal, resolve, henv, hc]

/-- C11 (as amended). For every field whose declared type is not string, int
or bool and whose annotation is not empty and parses without conversion
error: the conversion of every non-empty raw string fails with the conversion
error that names the type as `unsupported <kind>`, and `getVal` fails with
that error when the entry under the derived key is not empty; when that entry
is absent or empty nothing is converted and the value resolved before the
options check is the error `<key> required` for a required field and the zero
value of the type otherwise. -/
theorem getVal_unsupported_type (upper : Char → Char) (environ : List (Str × Str))
    (keyPrefix : Str) (field : StructField) (name : Str)
    (htype : field.Typ = Kind.other name) (htag : field.Tag ≠ [])
    (hparse : parseError upper keyPrefix field = none) :
    (∀ raw : Str, raw ≠ [] →
      convert field.Typ raw =
        (Value.invalid,
          some (GoError.conversion { Value := raw, Typ := "unsupported ".toList ++ name }))) ∧
    (Getenv environ (derivedKey upper keyPrefix field) ≠ [] →
      getVal upper environ keyPrefix field =
        Outcome.ret Value.invalid
          (some (GoError.conversion
            { Value := Getenv environ (derivedKey upper keyPrefix field),
              Typ := "unsupported ".toList ++ name }))) ∧
    (Getenv environ (derivedKey upper keyPrefix field) = [] →
      resolve upper environ keyPrefix field =
        if hasRequired field.Tag = true then
          (Value.invalid, some (GoError.required (derivedKey upper keyPrefix field)))
        else (Zero field.Typ, none)) := by
  obtain ⟨hk, hr, hd, _⟩ := newVar_of_parse_ok upper keyPrefix field htag hparse
  refine ⟨?_, ?_, ?_⟩
  · intro raw hraw
    rw [htype]
    simp only [convert, if_neg hraw, conversionError, Kind.name]
  · intro hne
    exact (getVal_unsupported_at_key upper environ keyPrefix field name _ htype
      (by rw [hk]) hne).2
  · intro henv
    have hd1 : (newVar upper keyPrefix field).default_ = Value.invalid := by
      cases hl : lastValue paramDefault (Split ' ' field.Tag) with
      | none =>
        rw [hl] at hd
        exact hd
      | some value =>
        rw [hl] at hd
        simp only at hd
        rw [htype] at hd
        exact convert_other_ok name value _ hd
    by_cases hreq : hasRequired field.Tag = true
    · simp [resolve, hk, hr, hreq, henv, convert]
    · have hreq2 : hasRequired field.Tag = false := by
        cases hh : hasRequired field.Tag
        · rfl
        · exact absurd hh hreq
      simp [resolve, hk, hr, hreq2, henv, convert, hd1]

/-- The amended C11 at `Rate float64` tagged `key=RATE` with `RATE=1.5`: the
error carries `1.5` and `unsupported float64`. -/
theorem getVal_unsupported_type_witness :
    getVal upperASCII [("RATE".toList, "1.5".toList)] []
        { Name := "Rate".toList, Typ := Kind.other "float64".toList, Tag := "key=RATE".toList } =
      Outcome.ret Value.invalid
        (some (GoError.conversion
          { Value := "1.5".toList, Typ := "unsupported ".toList ++ "float64".toList })) :=
  ((getVal_unsupported_type upperASCII [("RATE".toList, "1.5".toList)] []
    { Name := "Rate".toList, Typ := Kind.other "float64".toList, Tag := "key=RATE".toList }
    "float64".toList rfl (by decide) (by decide)).2.1 (by decide)).trans (by decide)

/-- C11 as stated fails: for `Rate float64` tagged `key=RATE` and no entry
`RATE`, `getVal` returns the zero value of the type and no error. -/
theorem getVal_unsupported_type_counterexample :
    ¬ ∀ (upper : Char → Char) (environ : List (Str × Str)) (keyPrefix : Str)
        (field : StructField) (name : Str),
        field.Typ = Kind.other name →
        ∃ (v : Value) (e : errConversion),
          getVal upper environ keyPrefix field = Outcome.ret v (some (GoError.conversion e)) ∧
          e.Typ = "unsupported ".toList ++ name := by
  intro h
  obtain ⟨v, e, h1, _⟩ := h upperASCII [] []
    { Name := "Rate".toList, Typ := Kind.other "float64".toList, Tag := "key=RATE".toList }
    "float64".toList rfl
  have hg : getVal upperASCII [] []
      { Name := "Rate".toList, Typ := Kind.other "float64".toList, Tag := "key=RATE".toList } =
      Outcome.ret (Value.zero "float64".toList) none := by decide
  rw [hg] at h1
  cases h1

/-- Under the key `getVal` looks up, an entry that does not convert makes
`getVal` return the result of `convert` as it is. -/
theorem getVal_convert_error_at_key (upper : Char → Char) (environ : List (Str × Str))
    (keyPrefix : Str) (field : StructField) (v : Value) (err : GoError)
    (hconv : convert field.Typ (Getenv environ (newVar upper keyPrefix field).key) =
      (v, some err)) :
    getVal upper environ keyPrefix field = Outcome.ret v (some err) ∧
    Getenv environ (newVar upper keyPrefix field).key ≠ [] ∧ v = Value.invalid ∧
    ∃ typ : Str,
      err = GoError.conversion
        { Value := Getenv environ (newVar upper keyPrefix field).key, Typ := typ } ∧
      err.Error = some ("could not convert value \"".toList ++
        Getenv environ (newVar upper keyPrefix field).key ++ "\" into ".toList ++ typ ++
        " type".toList) := by
  obtain ⟨hne, hv, typ, he⟩ := convert_error _ _ _ _ hconv
  refine ⟨?_, hne, hv, typ, he, ?_⟩
  · simp only [getVal, resolve, hconv]
  · rw [he]
    rfl

/-- C16 (as amended). For every field whose annotation is not empty and parses
without conversion error, and whose environment entry under the derived key
does not convert to the declared type (it is then not empty), `getVal` returns
the result of `convert` as it is, before any required, default or options
policy: the zero Value and the conversion error, whose text is
`could not convert value "<raw>" into <type> type` without the key in front. -/
theorem getVal_conversion_error (upper : Char → Char) (environ : List (Str × Str))
    (keyPrefix : Str) (field : StructField) (v : Value) (err : GoError)
    (htag : field.Tag ≠ []) (hparse : parseError upper keyPrefix field = none)
    (hconv : convert field.Typ (Getenv environ (derivedKey upper keyPrefix field)) =
      (v, some err)) :
    getVal upper environ keyPrefix field = Outcome.ret v (some err) ∧
    Getenv environ (derivedKey upper keyPrefix field) ≠ [] ∧ v = Value.invalid ∧
    ∃ typ : Str,
      err = GoError.conversion
        { Value := Getenv environ (derivedKey upper keyPrefix field), Typ := typ } ∧
      err.Error = some ("could not convert value \"".toList ++
        Getenv environ (derivedKey upper keyPrefix field) ++ "\" into ".toList ++ typ ++
        " type".toList) := by
  obtain ⟨hk, _, _, _⟩ := newVar_of_parse_ok upper keyPrefix field htag hparse
  have h := getVal_convert_error_at_key upper environ keyPrefix field v err
    (by rw [hk]; exact hconv)
  rw [hk] at h
  exact h

/-- The amended C16 at `Port int` tagged `key=PORT required default=7` with
`PORT=abc`. -/
theorem getVal_conversion_error_witness :
    getVal upperASCII [("PORT".toList, "abc".toList)] []
        { Name := "Port".toList, Typ := Kind.int, Tag := "key=PORT required default=7".toList } =
      Outcome.ret Value.invalid
        (some (GoError.conversion { Value := "abc".toList, Typ := "int".toList })) :=
  (getVal_conversion_error upperASCII [("PORT".toList, "abc".toList)] []
    { Name := "Port".toList, Typ := Kind.int, Tag := "key=PORT required default=7".toList }
    Value.invalid (GoError.conversion { Value := "abc".toList, Typ := "int".toList })
    (by decide) (by decide) (by decide)).1

/-- C16 as stated fails: for `Port int` tagged `key=PORT` with `PORT=abc`, the
text of the error `getVal` returns is the conversion message alone, not the
message with `PORT: ` in front. -/
theorem getVal_conversion_error_counterexample :
    ¬ ∀ (upper : Char → Char) (environ : List (Str × Str)) (keyPrefix : Str)
        (field : StructField) (v : Value) (e : errConversion),
        convert field.Typ (Getenv environ (derivedKey upper keyPrefix field)) =
          (v, some (GoError.conversion e)) →
        ∃ (v1 : Value) (err : GoError),
          getVal upper environ keyPrefix field = Outcome.ret v1 (some err) ∧
          err.Error = some (derivedKey upper keyPrefix field ++ ": ".toList ++ e.Error) := by
  intro h
  obtain ⟨v1, err, h1, h2⟩ := h upperASCII [("PORT".toList, "abc".toList)] []
    { Name := "Port".toList, Typ := Kind.int, Tag := "key=PORT".toList }
    Value.invalid { Value := "abc".toList, Typ := "int".toList } (by decide)
  have hg : getVal upperASCII [("PORT".toList, "abc".toList)] []
      { Name := "Port".toList, Typ := Kind.int, Tag := "key=PORT".toList } =
      Outcome.ret Value.invalid
        (some (GoError.conversion { Value := "abc".toList, Typ := "int".toList })) := by
    decide
  rw [hg] at h1
  cases h1
  revert h2
  decide

/-- C17 on the code: the tags `options=a,,b`, `options=` and `options` of a
string field parse without error, and the options list then holds an absent
element (the zero Value): `[a, absent, b]`, and `[absent]`, a list that is not
empty although the tag names no value. The membership check of `b` panics on
the absent element, and so does `getVal` for the bare `options`. -/
theorem options_list_holds_absent_element :
    parseError upperASCII []
        { Name := "Mode".toList, Typ := Kind.string, Tag := "options=a,,b".toList } = none ∧
    (newVar upperASCII []
        { Name := "Mode".toList, Typ := Kind.string, Tag := "options=a,,b".toList }).options =
      [Value.string "a".toList, Value.invalid, Value.string "b".toList] ∧
    optionsContains [Value.string "a".toList, Value.invalid, Value.string "b".toList]
        (Value.string "b".toList) = none ∧
    parseError upperASCII []
        { Name := "Mode".toList, Typ := Kind.string, Tag := "options=".toList } = none ∧
    (newVar upperASCII []
        { Name := "Mode".toList, Typ := Kind.string, Tag := "options=".toList }).options =
      [Value.invalid] ∧
    parseError upperASCII []
        { Name := "Mode".toList, Typ := Kind.string, Tag := "options".toList } = none ∧
    (newVar upperASCII []
        { Name := "Mode".toList, Typ := Kind.string, Tag := "options".toList }).options =
      [Value.invalid] ∧
    getVal upperASCII [("MODE".toList, "b".toList)] []
        { Name := "Mode".toList, Typ := Kind.string, Tag := "options".toList } =
      Outcome.panic := by
  decide

/-! ## `Process` -/

/-- C15 on the code: `Process` returns `errInvalidValue` and leaves the target
as it was, whatever the environment and the prefix, for a target that is not
a pointer, a nil pointer, and a pointer to something other than a struct; for
the nil interface, which is not a pointer either, it panics. -/
theorem Process_invalid_target (upper : Char → Char) (environ : List (Str × Str))
    (prefixArgs : List Str) :
    Process upper environ Target.nonPointer prefixArgs =
      ProcessOutcome.ret Target.nonPointer (some GoError.invalidValue) ∧
    Process upper environ Target.nilPointer prefixArgs =
      ProcessOutcome.ret Target.nilPointer (some GoError.invalidValue) ∧
    Process upper environ Target.pointerToOther prefixArgs =
      ProcessOutcome.ret Target.pointerToOther (some GoError.invalidValue) ∧
    GoError.invalidValue.Error = some "expected value must be a pointer to a struct".toList ∧
    Process upper environ Target.untypedNil prefixArgs = ProcessOutcome.panic := by
  refine ⟨?_, ?_, ?_, rfl, ?_⟩ <;> cases prefixArgs <;> rfl

/-- The value `getVal` returns is the value resolved before the options check. -/
theorem getVal_value (upper : Char → Char) (environ : List (Str × Str)) (keyPrefix : Str)
    (field : StructField) (v : Value) (err : Option GoError)
    (h : getVal upper environ keyPrefix field = Outcome.ret v err) :
    (resolve upper environ keyPrefix field).1 = v := by
  unfold getVal at h
  rcases hr : resolve upper environ keyPrefix field with ⟨value, _ | e⟩
  · rw [hr] at h
    simp only [checkOptions] at h
    split at h
    · split at h
      · cases h
      · cases h; rfl
      · cases h; rfl
    · cases h; rfl
  · rw [hr] at h
    cases h
    rfl

/-- A field that binds is given the value resolved before the options check. -/
theorem getVal_of_binds (upper : Char → Char) (environ : List (Str × Str)) (keyPrefix : Str)
    (field : StructField) (h : binds upper environ keyPrefix field = true) :
    getVal upper environ keyPrefix field =
      Outcome.ret (resolve upper environ keyPrefix field).1 none := by
  unfold binds at h
  rcases hg : getVal upper environ keyPrefix field with ⟨v, _ | e⟩ | _
  · rw [getVal_value _ _ _ _ _ _ hg]
  · rw [hg] at h
    cases h
  · rw [hg] at h
    cases h

/-- A field that `Process` writes binds, and `Set` puts the bound value in it. -/
theorem Set_of_writes (upper : Char → Char) (environ : List (Str × Str)) (keyPrefix : Str)
    (f : Field) (h : writes upper environ keyPrefix f = true) :
    getVal upper environ keyPrefix f.descriptor =
      Outcome.ret (resolve upper environ keyPrefix f.descriptor).1 none ∧
    f.Set (resolve upper environ keyPrefix f.descriptor).1 =
      some (bound upper environ keyPrefix f) := by
  simp only [writes, Bool.and_eq_true] at h
  obtain ⟨⟨hb, he⟩, ha⟩ := h
  refine ⟨getVal_of_binds _ _ _ _ hb, ?_⟩
  simp only [Field.Set, he, ha, and_self, if_true, bound]

/-- `Process` on a pointer to a struct is the loop over its fields, under the
first prefix given, or the empty prefix. -/
theorem Process_struct (upper : Char → Char) (environ : List (Str × Str)) (record : Record)
    (prefixArgs : List Str) :
    Process upper environ (Target.pointerToStruct record) prefixArgs =
      match processFields upper environ (prefixArgs.headD []) record with
      | ProcessOutcome.panic => ProcessOutcome.panic
      | ProcessOutcome.ret record1 err =>
        ProcessOutcome.ret (Target.pointerToStruct record1) err := by
  cases prefixArgs <;> rfl

/-- The loop over fields that are all written returns nil with every field
holding its bound value. -/
theorem processFields_all_written (upper : Char → Char) (environ : List (Str × Str))
    (keyPrefix : Str) (record : Record)
    (hall : ∀ f ∈ record, writes upper environ keyPrefix f = true) :
    processFields upper environ keyPrefix record =
      ProcessOutcome.ret (record.map (bound upper environ keyPrefix)) none := by
  induction record with
  | nil => rfl
  | cons f rest ih =>
    obtain ⟨hg, hs⟩ := Set_of_writes _ _ _ f (hall f (List.mem_cons_self _ _))
    have ih1 := ih (fun g hg => hall g (List.mem_cons_of_mem _ hg))
    simp only [processFields, hg, hs, ih1, List.map_cons]

/-- The loop over fields stops at the first field whose binding returns an
error: the fields before it, all written, hold their bound values, that field
and the fields after it are as they were. -/
theorem processFields_first_error (upper : Char → Char) (environ : List (Str × Str))
    (keyPrefix : Str) (before after : Record) (f : Field) (v : Value) (err : GoError)
    (hbefore : ∀ g ∈ before, writes upper environ keyPrefix g = true)
    (hfail : getVal upper environ keyPrefix f.descriptor = Outcome.ret v (some err)) :
    processFields upper environ keyPrefix (before ++ f :: after) =
      ProcessOutcome.ret (before.map (bound upper environ keyPrefix) ++ f :: after)
        (some err) := by
  induction before with
  | nil => simp only [List.nil_append, processFields, hfail, List.map_nil]
  | cons g rest ih =>
    obtain ⟨hg, hs⟩ := Set_of_writes _ _ _ g (hbefore g (List.mem_cons_self _ _))
    have ih1 := ih (fun x hx => hbefore x (List.mem_cons_of_mem _ hx))
    simp only [List.cons_append, processFields, hg, hs, List.append_eq, ih1, List.map_cons]

/-- Whatever the loop over the fields returns, every field is left as it was
or holds the value `getVal` resolves for that field alone. -/
theorem processFields_frame (upper : Char → Char) (environ : List (Str × Str))
    (keyPrefix : Str) (record : Record) :
    ∀ (result : Record) (err : Option GoError),
      processFields upper environ keyPrefix record = ProcessOutcome.ret result err →
      List.Forall₂ (fun f g => g = f ∨ g = bound upper environ keyPrefix f) record result := by
  induction record with
  | nil =>
    intro result err h
    simp only [processFields, ProcessOutcome.ret.injEq] at h
    rw [← h.1]
    exact List.Forall₂.nil
  | cons f rest ih =>
    intro result err h
    rw [processFields] at h
    rcases hg : getVal upper environ keyPrefix f.descriptor with ⟨v, _ | e⟩ | _
    · rw [hg] at h
      simp only at h
      rcases hs : f.Set v with _ | f1
      · rw [hs] at h
        cases h
      · rw [hs] at h
        simp only at h
        rcases hp : processFields upper environ keyPrefix rest with ⟨rest1, err1⟩ | _
        · rw [hp] at h
          simp only [ProcessOutcome.ret.injEq] at h
          rw [← h.1]
          refine List.Forall₂.cons (Or.inr ?_) (ih rest1 err1 hp)
          unfold Field.Set at hs
          split at hs
          · simp only [Option.some.injEq] at hs
            rw [← hs, bound, getVal_value _ _ _ _ _ _ hg]
          · cases hs
        · rw [hp] at h
          cases h
    · rw [hg] at h
      simp only [ProcessOutcome.ret.injEq] at h
      rw [← h.1]
      exact List.forall₂_same.2 (fun x _ => Or.inl rfl)
    · rw [hg] at h
      cases h

/-- `Process` is fail-fast without rollback on the fields it can write: when
the fields before index `i` are all written and the binding of field `i`
returns an error, `Process` returns exactly that error, every field before `i`
holds the value `getVal` resolves for it, and field `i` and the fields after
it are unchanged. -/
theorem Process_fail_fast (upper : Char → Char) (environ : List (Str × Str))
    (prefixArgs : List Str) (before after : Record) (f : Field) (v : Value) (err : GoError)
    (hbefore : ∀ g ∈ before, writes upper environ (prefixArgs.headD []) g = true)
    (hfail : getVal upper environ (prefixArgs.headD []) f.descriptor =
      Outcome.ret v (some err)) :
    Process upper environ (Target.pointerToStruct (before ++ f :: after)) prefixArgs =
      ProcessOutcome.ret
        (Target.pointerToStruct
          (before.map (bound upper environ (prefixArgs.headD [])) ++ f :: after))
        (some err) := by
  rw [Process_struct, processFields_first_error _ _ _ _ _ _ _ _ hbefore hfail]

/-- On success `Process` overwrites every field: when every field is written,
`Process` returns nil and each field, in declaration order, holds the value
`getVal` resolves for it, whatever it held before. -/
theorem Process_overwrites (upper : Char → Char) (environ : List (Str × Str))
    (prefixArgs : List Str) (record : Record)
    (hall : ∀ f ∈ record, writes upper environ (prefixArgs.headD []) f = true) :
    Process upper environ (Target.pointerToStruct record) prefixArgs =
      ProcessOutcome.ret
        (Target.pointerToStruct (record.map (bound upper environ (prefixArgs.headD []))))
        none := by
  rw [Process_struct, processFields_all_written _ _ _ _ hall]

/-- C13 on the code: for the record `name string` tagged `default=svc`, a
field that is not exported, and `Port int` tagged `required`, with `PORT`
unset, the first field binds and the binding of the second returns
`PORT required`, yet `Process` does not return that error: `Set` panics on the
first field. It panics as well when the first field is `Level`, of the defined
type `type Level int`, tagged `key=LVL` with `LVL=1`, as the `int` bound is not
assignable to it. With the exported field `Name string` in front, `Process`
returns `PORT required` with `Name` set to `svc` and `Port` as it was. -/
theorem Process_panics_before_first_error :
    binds upperASCII [] []
        { Name := "name".toList, Typ := Kind.string, Tag := "default=svc".toList } = true ∧
    getVal upperASCII [] [] { Name := "Port".toList, Typ := Kind.int, Tag := "required".toList } =
      Outcome.ret Value.invalid (some (GoError.required "PORT".toList)) ∧
    Process upperASCII []
        (Target.pointerToStruct
          [{ descriptor :=
                { Name := "name".toList, Typ := Kind.string, Tag := "default=svc".toList },
              exported := false, content := Value.string "old".toList },
            { descriptor := { Name := "Port".toList, Typ := Kind.int, Tag := "required".toList },
              exported := true, content := Value.int 1 }]) [] =
      ProcessOutcome.panic ∧
    binds upperASCII [("LVL".toList, "1".toList)] []
        { Name := "Level".toList, Typ := Kind.defined "Level".toList Underlying.int,
          Tag := "key=LVL".toList } = true ∧
    Process upperASCII [("LVL".toList, "1".toList)]
        (Target.pointerToStruct
          [{ descriptor :=
                { Name := "Level".toList, Typ := Kind.defined "Level".toList Underlying.int,
                  Tag := "key=LVL".toList },
              exported := true, content := Value.zero "Level".toList },
            { descriptor := { Name := "Port".toList, Typ := Kind.int, Tag := "required".toList },
              exported := true, content := Value.int 1 }]) [] =
      ProcessOutcome.panic ∧
    Process upperASCII []
        (Target.pointerToStruct
          [{ descriptor :=
                { Name := "Name".toList, Typ := Kind.string, Tag := "default=svc".toList },
              exported := true, content := Value.string "old".toList },
            { descriptor := { Name := "Port".toList, Typ := Kind.int, Tag := "required".toList },
              exported := true, content := Value.int 1 }]) [] =
      ProcessOutcome.ret
        (Target.pointerToStruct
          [{ descriptor :=
                { Name := "Name".toList, Typ := Kind.string, Tag := "default=svc".toList },
              exported := true, content := Value.string "svc".toList },
            { descriptor := { Name := "Port".toList, Typ := Kind.int, Tag := "required".toList },
              exported := true, content := Value.int 1 }])
        (some (GoError.required "PORT".toList)) := by
  decide

/-- C14 on the code: the only field of the record, `name string` without tag
and not exported, binds to the empty string, and `Process` panics in `Set`
instead of returning nil; so it does for the field `Level` of the defined type
`type Level int` tagged `key=LVL` with `LVL=1`, which binds to the `int` 1. For
the exported fields `Name string` tagged `default=svc` and `Port int` tagged
`required`, with `PORT=8080`, `Process` returns nil and the record is
`{Name: "svc", Port: 8080}`. -/
theorem Process_panics_on_bound_field :
    getVal upperASCII [] [] { Name := "name".toList, Typ := Kind.string, Tag := [] } =
      Outcome.ret (Value.string []) none ∧
    Process upperASCII []
        (Target.pointerToStruct
          [{ descriptor := { Name := "name".toList, Typ := Kind.string, Tag := [] },
              exported := false, content := Value.string "old".toList }]) [] =
      ProcessOutcome.panic ∧
    getVal upperASCII [("LVL".toList, "1".toList)] []
        { Name := "Level".toList, Typ := Kind.defined "Level".toList Underlying.int,
          Tag := "key=LVL".toList } =
      Outcome.ret (Value.int 1) none ∧
    Process upperASCII [("LVL".toList, "1".toList)]
        (Target.pointerToStruct
          [{ descriptor :=
                { Name := "Level".toList, Typ := Kind.defined "Level".toList Underlying.int,
                  Tag := "key=LVL".toList },
              exported := true, content := Value.zero "Level".toList }]) [] =
      ProcessOutcome.panic ∧
    Process upperASCII [("PORT".toList, "8080".toList)]
        (Target.pointerToStruct
          [{ descriptor :=
                { Name := "Name".toList, Typ := Kind.string, Tag := "default=svc".toList },
              exported := true, content := Value.string "old".toList },
            { descriptor := { Name := "Port".toList, Typ := Kind.int, Tag := "required".toList },
              exported := true, content := Value.int 1 }]) [] =
      ProcessOutcome.ret
        (Target.pointerToStruct
          [{ descriptor :=
                { Name := "Name".toList, Typ := Kind.string, Tag := "default=svc".toList },
              exported := true, content := Value.string "svc".toList },
            { descriptor := { Name := "Port".toList, Typ := Kind.int, Tag := "required".toList },
              exported := true, content := Value.int 8080 }]) none := by
  decide

/-- C20. Binding reads the environment only at the key computed by `parse`:
in two environments that agree on the value under that key, `getVal` returns
the same value or the same error. In `Process`, whenever it returns, a field
is left as it was or holds the value `getVal` resolves from that field alone,
whatever the other fields and their order; and when every field is written,
the fields processed in another order get the same values. -/
theorem getVal_reads_one_key (upper : Char → Char) (keyPrefix : Str) (field : StructField)
    (environ1 environ2 : List (Str × Str))
    (hagree : Getenv environ1 (newVar upper keyPrefix field).key =
      Getenv environ2 (newVar upper keyPrefix field).key) :
    getVal upper environ1 keyPrefix field = getVal upper environ2 keyPrefix field ∧
    (∀ (prefixArgs : List Str) (record result : Record) (err : Option GoError),
      Process upper environ1 (Target.pointerToStruct record) prefixArgs =
        ProcessOutcome.ret (Target.pointerToStruct result) err →
      List.Forall₂ (fun f g => g = f ∨ g = bound upper environ1 (prefixArgs.headD []) f)
        record result) ∧
    (∀ (prefixArgs : List Str) (record reordered : Record),
      record.Perm reordered →
      (∀ f ∈ record, writes upper environ1 (prefixArgs.headD []) f = true) →
      Process upper environ1 (Target.pointerToStruct record) prefixArgs =
        ProcessOutcome.ret
          (Target.pointerToStruct (record.map (bound upper environ1 (prefixArgs.headD []))))
          none ∧
      Process upper environ1 (Target.pointerToStruct reordered) prefixArgs =
        ProcessOutcome.ret
          (Target.pointerToStruct (reordered.map (bound upper environ1 (prefixArgs.headD []))))
          none ∧
      (record.map (bound upper environ1 (prefixArgs.headD []))).Perm
        (reordered.map (bound upper environ1 (prefixArgs.headD [])))) := by
  refine ⟨?_, ?_, ?_⟩
  · simp only [getVal, resolve, hagree]
  · intro prefixArgs record result err h
    rw [Process_struct] at h
    rcases hp : processFields upper environ1 (prefixArgs.headD []) record
      with ⟨record1, err1⟩ | _
    · rw [hp] at h
      simp only [ProcessOutcome.ret.injEq, Target.pointerToStruct.injEq] at h
      rw [← h.1]
      exact processFields_frame _ _ _ _ _ _ hp
    · rw [hp] at h
      cases h
  · intro prefixArgs record reordered hperm hall
    have hall2 : ∀ f ∈ reordered, writes upper environ1 (prefixArgs.headD []) f = true :=
      fun f hf => hall f (hperm.mem_iff.2 hf)
    refine ⟨?_, ?_, hperm.map _⟩
    · rw [Process_struct, processFields_all_written _ _ _ _ hall]
    · rw [Process_struct, processFields_all_written _ _ _ _ hall2]

/-- C20 at `Port int` tagged `key=PORT`: an environment with `PORT=8080` and
one with `HOST=h` in front of it give the same result. -/
theorem getVal_reads_one_key_witness :
    getVal upperASCII [("PORT".toList, "8080".toList)] []
        { Name := "Port".toList, Typ := Kind.int, Tag := "key=PORT".toList } =
      getVal upperASCII [("HOST".toList, "h".toList), ("PORT".toList, "8080".toList)] []
        { Name := "Port".toList, Typ := Kind.int, Tag := "key=PORT".toList } :=
  (getVal_reads_one_key upperASCII []
    { Name := "Port".toList, Typ := Kind.int, Tag := "key=PORT".toList }
    [("PORT".toList, "8080".toList)]
    [("HOST".toList, "h".toList), ("PORT".toList, "8080".toList)] (by decide)).1

/-! ## Splitting and joining -/

/-- `strings.Split` never returns an empty slice. -/
theorem Split_ne_nil (sep : Char) (s : Str) : Split sep s ≠ [] := by
  cases s with
  | nil => simp [Split]
  | cons c cs =>
    rw [Split]
    by_cases h : c = sep
    · rw [if_pos h]; simp
    · rw [if_neg h]
      cases Split sep cs <;> simp

/-- A string without the separator is its own single piece. -/
theorem Split_of_not_mem (sep : Char) (s : Str) (h : sep ∉ s) : Split sep s = [s] := by
  induction s with
  | nil => rfl
  | cons c cs ih =>
    have hc : c ≠ sep := fun hc => h (hc ▸ List.mem_cons_self _ _)
    have hcs : sep ∉ cs := fun hm => h (List.mem_cons_of_mem _ hm)
    rw [Split, if_neg hc, ih hcs]

/-- The pieces of two strings joined by the separator are the pieces of the
first followed by the pieces of the second. -/
theorem Split_append (sep : Char) (a b : Str) :
    Split sep (a ++ sep :: b) = Split sep a ++ Split sep b := by
  induction a with
  | nil => simp [Split]
  | cons c cs ih =>
    rw [List.cons_append, Split, Split]
    by_cases hc : c = sep
    · rw [if_pos hc, if_pos hc, ih]
      rfl
    · rw [if_neg hc, if_neg hc, ih]
      cases hs : Split sep cs with
      | nil => exact absurd hs (Split_ne_nil sep cs)
      | cons piece pieces => rfl

/-- No piece holds the separator. -/
theorem Split_no_sep (sep : Char) (s : Str) : ∀ p ∈ Split sep s, sep ∉ p := by
  induction s with
  | nil =>
    intro p hp
    simp only [Split, List.mem_singleton] at hp
    rw [hp]
    exact List.not_mem_nil _
  | cons c cs ih =>
    intro p hp
    rw [Split] at hp
    by_cases hc : c = sep
    · rw [if_pos hc] at hp
      rcases List.mem_cons.1 hp with h | h
      · rw [h]
        exact List.not_mem_nil _
      · exact ih p h
    · rw [if_neg hc] at hp
      cases hs : Split sep cs with
      | nil => exact absurd hs (Split_ne_nil sep cs)
      | cons piece pieces =>
        rw [hs] at hp ih
        rcases List.mem_cons.1 hp with h | h
        · rw [h]
          intro hm
          rcases List.mem_cons.1 hm with h1 | h1
          · exact hc h1.symm
          · exact ih piece (List.mem_cons_self _ _) h1
        · exact ih p (List.mem_cons_of_mem _ h)

/-- Splitting what was joined gives the pieces back, when there is a piece and
no piece holds the separator. -/
theorem Split_Join (sep : Char) (pieces : List Str) (hne : pieces ≠ [])
    (hsep : ∀ p ∈ pieces, sep ∉ p) : Split sep (Join sep pieces) = pieces := by
  induction pieces with
  | nil => exact absurd rfl hne
  | cons a rest ih =>
    cases rest with
    | nil => exact Split_of_not_mem sep a (hsep a (List.mem_cons_self _ _))
    | cons b rest2 =>
      rw [Join, Split_append, Split_of_not_mem sep a (hsep a (List.mem_cons_self _ _)),
        ih (by simp) (fun p hp => hsep p (List.mem_cons_of_mem _ hp))]
      rfl

/-- A join of pieces is empty only if there is no piece or the pieces are empty. -/
theorem Join_eq_nil (sep : Char) (pieces : List Str) (h : Join sep pieces = []) :
    ∀ p ∈ pieces, p = [] := by
  cases pieces with
  | nil => intro p hp; cases hp
  | cons a rest =>
    cases rest with
    | nil =>
      intro p hp
      simp only [List.mem_singleton] at hp
      rw [hp]
      exact h
    | cons b rest2 =>
      rw [Join] at h
      simp at h

/-! ## The tag parser, parameter by parameter -/

/-- The loop over two lists of parameters in a row is the loop over the second
from where the loop over the first ends, unless that one returns an error. -/
theorem parseLoop_append (t : Kind) (l1 l2 : List Str) :
    ∀ (key : Str) (v : envVar),
      parseLoop t (l1 ++ l2) key v =
        match parseLoop t l1 key v with
        | (key1, v1, none) => parseLoop t l2 key1 v1
        | (key1, v1, some err) => (key1, v1, some err) := by
  induction l1 with
  | nil => intro key v; rfl
  | cons tok rest ih =>
    intro key v
    rw [List.cons_append, parseLoop, parseLoop]
    by_cases h1 : tokenParam tok = paramKey
    · rw [if_pos h1, if_pos h1]
      exact ih _ _
    · rw [if_neg h1, if_neg h1]
      by_cases h2 : tokenParam tok = paramRequired
      · rw [if_pos h2, if_pos h2]
        exact ih _ _
      · rw [if_neg h2, if_neg h2]
        by_cases h3 : tokenParam tok = paramDefault
        · rw [if_pos h3, if_pos h3]
          rcases convert t (tokenValue tok) with ⟨d0, _ | err⟩
          · exact ih _ _
          · rfl
        · rw [if_neg h3, if_neg h3]
          by_cases h4 : tokenParam tok = paramOptions
          · rw [if_pos h4, if_pos h4]
            rcases convertAll t (Split ',' (tokenValue tok)) with err | values
            · rfl
            · exact ih _ _
          · rw [if_neg h4, if_neg h4]
            exact ih _ _

/-- The loop skips a parameter whose name is not recognized. -/
theorem parseLoop_filter (t : Kind) (toks : List Str) :
    ∀ (key : Str) (v : envVar),
      parseLoop t (toks.filter recognized) key v = parseLoop t toks key v := by
  induction toks with
  | nil => intro key v; rfl
  | cons tok rest ih =>
    intro key v
    by_cases hr : recognized tok = true
    · rw [List.filter_cons_of_pos hr, parseLoop, parseLoop]
      simp only [ih]
    · have hr2 := hr
      simp only [recognized, decide_eq_true_eq, not_or] at hr2
      rw [List.filter_cons_of_neg hr, ih]
      conv_rhs => rw [parseLoop]
      rw [if_neg hr2.1, if_neg hr2.2.1, if_neg hr2.2.2.1, if_neg hr2.2.2.2]

/-- The loop reads a parameter through its name and its value only, and the
value of a `required` parameter not at all. -/
theorem parseLoop_congr (t : Kind) (a b : Str) (post : List Str)
    (hparam : tokenParam a = tokenParam b)
    (hvalue : tokenValue a = tokenValue b ∨ tokenParam b = paramRequired)
    (before : List Str) :
    ∀ (key : Str) (v : envVar),
      parseLoop t (before ++ a :: post) key v = parseLoop t (before ++ b :: post) key v := by
  induction before with
  | nil =>
    intro key v
    rw [List.nil_append, List.nil_append, parseLoop, parseLoop, hparam]
    rcases hvalue with hv | hreq
    · rw [hv]
    · have hkr : paramRequired ≠ paramKey := by decide
      rw [hreq, if_neg hkr, if_pos rfl, if_neg hkr, if_pos rfl]
  | cons tok rest ih =>
    intro key v
    rw [List.cons_append, List.cons_append, parseLoop, parseLoop]
    simp only [ih]

/-- Two fields of the same declared type that `parse` treats alike are bound
alike. -/
theorem getVal_of_parse_eq (upper : Char → Char) (environ : List (Str × Str)) (keyPrefix : Str)
    (f g : StructField) (htype : f.Typ = g.Typ)
    (hparse : parse upper (emptyVar keyPrefix) f = parse upper (emptyVar keyPrefix) g) :
    getVal upper environ keyPrefix f = getVal upper environ keyPrefix g := by
  simp only [getVal, resolve, newVar, hparse, htype]

/-- `parse` of a tag that is not empty is the loop over its parameters. -/
theorem parse_of_tokens (upper : Char → Char) (v : envVar) (f g : StructField)
    (hf : f.Tag ≠ []) (hg : g.Tag ≠ [])
    (hloop : parseLoop f.Typ (Split ' ' f.Tag) f.Name v =
      parseLoop g.Typ (Split ' ' g.Tag) g.Name v) :
    parse upper v f = parse upper v g := by
  unfold parse
  rw [if_neg hf, if_neg hg, hloop]

/-- Deleting the parameters whose name is not recognized leaves the result of
`getVal` unchanged, as long as a parameter remains. -/
theorem getVal_stripUnrecognized (upper : Char → Char) (environ : List (Str × Str))
    (keyPrefix : Str) (field : StructField) (hne : stripUnrecognized field.Tag ≠ []) :
    getVal upper environ keyPrefix { field with Tag := stripUnrecognized field.Tag } =
      getVal upper environ keyPrefix field := by
  have htag : field.Tag ≠ [] := by
    intro h0
    rw [h0] at hne
    exact hne (by decide)
  have hfilter : (Split ' ' field.Tag).filter recognized ≠ [] := by
    intro h0
    apply hne
    unfold stripUnrecognized
    rw [h0]
    rfl
  have hsplit : Split ' ' (stripUnrecognized field.Tag) =
      (Split ' ' field.Tag).filter recognized :=
    Split_Join ' ' _ hfilter
      (fun p hp => Split_no_sep ' ' field.Tag p (List.mem_filter.1 hp).1)
  refine getVal_of_parse_eq upper environ keyPrefix
    { field with Tag := stripUnrecognized field.Tag } field rfl
    (parse_of_tokens upper _ { field with Tag := stripUnrecognized field.Tag } field hne htag ?_)
  show parseLoop field.Typ (Split ' ' (stripUnrecognized field.Tag)) field.Name _ = _
  rw [hsplit, parseLoop_filter]

/-- C12 on the code: the only parameter `x` of the tag of `Port int` is not
recognized, and deleting it leaves the empty tag; with `PORT=8080` the field
is bound to 8080 under the tag `x` and to 0 under the empty tag, where `parse`
returns before it sets the key. Deleting `x` from `x required` changes
nothing. -/
theorem unrecognized_token_not_ignored :
    stripUnrecognized "x".toList = [] ∧
    getVal upperASCII [("PORT".toList, "8080".toList)] []
        { Name := "Port".toList, Typ := Kind.int, Tag := "x".toList } =
      Outcome.ret (Value.int 8080) none ∧
    getVal upperASCII [("PORT".toList, "8080".toList)] []
        { Name := "Port".toList, Typ := Kind.int, Tag := stripUnrecognized "x".toList } =
      Outcome.ret (Value.int 0) none ∧
    stripUnrecognized "x required".toList = "required".toList ∧
    getVal upperASCII [("PORT".toList, "8080".toList)] []
        { Name := "Port".toList, Typ := Kind.int, Tag := "x required".toList } =
      getVal upperASCII [("PORT".toList, "8080".toList)] []
        { Name := "Port".toList, Typ := Kind.int,
          Tag := stripUnrecognized "x required".toList } := by
  decide

/-- The loop over one parameter, on a policy, is `withParam` once the key is
set, when it returns no error. -/
theorem parseLoop_single (upper : Char → Char) (t : Kind) (tok key : Str) (v : envVar)
    (key1 : Str) (v1 : envVar) (h : parseLoop t [tok] key v = (key1, v1, none)) :
    ({ v1 with key := ToUpper upper (v1.keyPrefix ++ key1) } : envVar) =
      withParam upper t { v with key := ToUpper upper (v.keyPrefix ++ key) } tok := by
  rw [parseLoop] at h
  unfold withParam
  by_cases h1 : tokenParam tok = paramKey
  · rw [if_pos h1] at h
    rw [if_pos h1]
    simp only [parseLoop, Prod.mk.injEq, and_true] at h
    obtain ⟨rfl, rfl⟩ := h
    rfl
  · rw [if_neg h1] at h
    rw [if_neg h1]
    by_cases h2 : tokenParam tok = paramRequired
    · rw [if_pos h2] at h
      rw [if_pos h2]
      simp only [parseLoop, Prod.mk.injEq, and_true] at h
      obtain ⟨rfl, rfl⟩ := h
      rfl
    · rw [if_neg h2] at h
      rw [if_neg h2]
      by_cases h3 : tokenParam tok = paramDefault
      · rw [if_pos h3] at h
        rw [if_pos h3]
        rcases hc : convert t (tokenValue tok) with ⟨d0, _ | err⟩
        · rw [hc] at h
          simp only [parseLoop, Prod.mk.injEq, and_true] at h
          obtain ⟨rfl, rfl⟩ := h
          rfl
        · rw [hc] at h
          simp at h
      · rw [if_neg h3] at h
        rw [if_neg h3]
        by_cases h4 : tokenParam tok = paramOptions
        · rw [if_pos h4] at h
          rw [if_pos h4]
          rcases hc : convertAll t (Split ',' (tokenValue tok)) with err | values
          · rw [hc] at h
            simp at h
          · rw [hc] at h
            simp only [parseLoop, Prod.mk.injEq, and_true] at h
            obtain ⟨rfl, rfl⟩ := h
            rfl
        · rw [if_neg h4] at h
          rw [if_neg h4]
          simp only [parseLoop, Prod.mk.injEq, and_true] at h
          obtain ⟨rfl, rfl⟩ := h
          rfl

/-- C18. Last token wins: for an annotation `A` followed by a further
parameter `tok` that parses without error, `A` parses without error and the
policy is the policy of `A` with only the attribute of `tok` replaced; hence
the key is the derived key of the last `key=` parameter, `required` is set by
any `required` parameter, and the default and the options are the converted
value of the last `default=` and `options=` parameter, a last `default=` with
an empty value leaving no default. -/
theorem last_token_wins (upper : Char → Char) (keyPrefix name : Str) (t : Kind) (A tok : Str)
    (hA : A ≠ []) (htok : ' ' ∉ tok)
    (hparse : parseError upper keyPrefix { Name := name, Typ := t, Tag := A ++ ' ' :: tok } =
      none) :
    parseError upper keyPrefix { Name := name, Typ := t, Tag := A } = none ∧
    newVar upper keyPrefix { Name := name, Typ := t, Tag := A ++ ' ' :: tok } =
      withParam upper t (newVar upper keyPrefix { Name := name, Typ := t, Tag := A }) tok ∧
    (newVar upper keyPrefix { Name := name, Typ := t, Tag := A ++ ' ' :: tok }).key =
      ToUpper upper
        (keyPrefix ++ (lastValue paramKey (Split ' ' (A ++ ' ' :: tok))).getD name) ∧
    (newVar upper keyPrefix { Name := name, Typ := t, Tag := A ++ ' ' :: tok }).required =
      hasRequired (A ++ ' ' :: tok) ∧
    (match lastValue paramDefault (Split ' ' (A ++ ' ' :: tok)) with
      | none =>
        (newVar upper keyPrefix { Name := name, Typ := t, Tag := A ++ ' ' :: tok }).default_ =
          Value.invalid
      | some value =>
        convert t value =
          ((newVar upper keyPrefix { Name := name, Typ := t, Tag := A ++ ' ' :: tok }).default_,
            none)) ∧
    (match lastValue paramOptions (Split ' ' (A ++ ' ' :: tok)) with
      | none =>
        (newVar upper keyPrefix { Name := name, Typ := t, Tag := A ++ ' ' :: tok }).options = []
      | some value =>
        convertAll t (Split ',' value) =
          Except.ok
            (newVar upper keyPrefix
              { Name := name, Typ := t, Tag := A ++ ' ' :: tok }).options) ∧
    (lastValue paramDefault (Split ' ' (A ++ ' ' :: tok)) = some [] →
      (newVar upper keyPrefix { Name := name, Typ := t, Tag := A ++ ' ' :: tok }).default_ =
        Value.invalid) := by
  have hwhole : A ++ ' ' :: tok ≠ [] := by simp
  have hsplit : Split ' ' (A ++ ' ' :: tok) = Split ' ' A ++ [tok] := by
    rw [Split_append, Split_of_not_mem ' ' tok htok]
  obtain ⟨hk, hr, hd, ho⟩ := newVar_of_parse_ok upper keyPrefix
    { Name := name, Typ := t, Tag := A ++ ' ' :: tok } hwhole hparse
  have hloop := parseLoop_append t (Split ' ' A) [tok] name (emptyVar keyPrefix)
  unfold parseError at hparse
  unfold parse at hparse
  simp only [if_neg hwhole, hsplit, hloop] at hparse
  rcases hl : parseLoop t (Split ' ' A) name (emptyVar keyPrefix) with ⟨key1, v1, _ | err⟩
  · rw [hl] at hparse hloop
    simp only at hparse hloop
    rcases hl2 : parseLoop t [tok] key1 v1 with ⟨key2, v2, _ | err2⟩
    · have hsingle := parseLoop_single upper t tok key1 v1 key2 v2 hl2
      refine ⟨?_, ?_, hk, hr, hd, ho, ?_⟩
      · simp only [parseError, parse, if_neg hA, hl]
      · rw [hl2] at hloop
        simp only [newVar, parse, if_neg hwhole, if_neg hA, hsplit, hloop, hl]
        exact hsingle
      · intro hlast
        rw [hlast] at hd
        simp only [convert] at hd
        exact (congrArg Prod.fst hd).symm
    · rw [hl2] at hparse
      simp at hparse
  · rw [hl] at hparse
    simp at hparse

/-- C18 at `key=a default=7` followed by `key=b`: the key is `B` and the
default is still 7. -/
theorem last_token_wins_witness :
    newVar upperASCII []
        { Name := "Port".toList, Typ := Kind.int,
          Tag := "key=a default=7".toList ++ ' ' :: "key=b".toList } =
      { key := "B".toList, keyPrefix := [], required := false, default_ := Value.int 7,
        options := [] } :=
  ((last_token_wins upperASCII [] "Port".toList Kind.int "key=a default=7".toList
    "key=b".toList (by decide) (by decide) (by decide)).2.1).trans (by decide)

/-- C19. A parameter `name=v1=v2...` is read as `name=v1`: its name is the
text before the first `=` and its value the text between the first and the
second `=`, so that the loop of `parse`, and `getVal` on a tag made of that
parameter, give the same for `name=v1=rest` as for `name=v1`; and a parameter
`required=anything` is read as the bare flag `required`. -/
theorem token_value_ends_at_second_equals (n v1 rest : Str) (hn : '=' ∉ n) (hv : '=' ∉ v1) :
    tokenParam (n ++ '=' :: (v1 ++ '=' :: rest)) = n ∧
    tokenValue (n ++ '=' :: (v1 ++ '=' :: rest)) = v1 ∧
    tokenParam (n ++ '=' :: v1) = n ∧ tokenValue (n ++ '=' :: v1) = v1 ∧
    (∀ (t : Kind) (before after : List Str) (key : Str) (v : envVar),
      parseLoop t (before ++ (n ++ '=' :: (v1 ++ '=' :: rest)) :: after) key v =
        parseLoop t (before ++ (n ++ '=' :: v1) :: after) key v) ∧
    (∀ (upper : Char → Char) (environ : List (Str × Str)) (keyPrefix name : Str) (t : Kind),
      ' ' ∉ n ++ '=' :: (v1 ++ '=' :: rest) →
      newVar upper keyPrefix
          { Name := name, Typ := t, Tag := n ++ '=' :: (v1 ++ '=' :: rest) } =
        newVar upper keyPrefix { Name := name, Typ := t, Tag := n ++ '=' :: v1 } ∧
      getVal upper environ keyPrefix
          { Name := name, Typ := t, Tag := n ++ '=' :: (v1 ++ '=' :: rest) } =
        getVal upper environ keyPrefix { Name := name, Typ := t, Tag := n ++ '=' :: v1 }) ∧
    (∀ (anything : Str) (t : Kind) (before after : List Str) (key : Str) (v : envVar),
      tokenParam (paramRequired ++ '=' :: anything) = paramRequired ∧
      parseLoop t (before ++ (paramRequired ++ '=' :: anything) :: after) key v =
        parseLoop t (before ++ paramRequired :: after) key v) := by
  have hsA : Split '=' (n ++ '=' :: (v1 ++ '=' :: rest)) = n :: v1 :: Split '=' rest := by
    rw [Split_append, Split_append, Split_of_not_mem '=' n hn, Split_of_not_mem '=' v1 hv]
    rfl
  have hsB : Split '=' (n ++ '=' :: v1) = [n, v1] := by
    rw [Split_append, Split_of_not_mem '=' n hn, Split_of_not_mem '=' v1 hv]
    rfl
  have hpA : tokenParam (n ++ '=' :: (v1 ++ '=' :: rest)) = n := by
    simp only [tokenParam, hsA, List.headD_cons]
  have hvA : tokenValue (n ++ '=' :: (v1 ++ '=' :: rest)) = v1 := by
    simp [tokenValue, hsA]
  have hpB : tokenParam (n ++ '=' :: v1) = n := by
    simp only [tokenParam, hsB, List.headD_cons]
  have hvB : tokenValue (n ++ '=' :: v1) = v1 := by
    simp [tokenValue, hsB]
  have hcongr : ∀ (t : Kind) (before after : List Str) (key : Str) (v : envVar),
      parseLoop t (before ++ (n ++ '=' :: (v1 ++ '=' :: rest)) :: after) key v =
        parseLoop t (before ++ (n ++ '=' :: v1) :: after) key v := by
    intro t before after key v
    exact parseLoop_congr t _ _ after (hpA.trans hpB.symm) (Or.inl (hvA.trans hvB.symm))
      before key v
  refine ⟨hpA, hvA, hpB, hvB, hcongr, ?_, ?_⟩
  · intro upper environ keyPrefix name t hsp
    have hspB : ' ' ∉ n ++ '=' :: v1 := by
      intro hm
      apply hsp
      rcases List.mem_append.1 hm with h | h
      · exact List.mem_append_left _ h
      · rcases List.mem_cons.1 h with h | h
        · exact List.mem_append_right _ (h ▸ List.mem_cons_self _ _)
        · exact List.mem_append_right _
            (List.mem_cons_of_mem _ (List.mem_append_left _ h))
    have hparse : parse upper (emptyVar keyPrefix)
        { Name := name, Typ := t, Tag := n ++ '=' :: (v1 ++ '=' :: rest) } =
        parse upper (emptyVar keyPrefix) { Name := name, Typ := t, Tag := n ++ '=' :: v1 } := by
      refine parse_of_tokens upper _
        { Name := name, Typ := t, Tag := n ++ '=' :: (v1 ++ '=' :: rest) }
        { Name := name, Typ := t, Tag := n ++ '=' :: v1 } (by simp) (by simp) ?_
      show parseLoop t (Split ' ' (n ++ '=' :: (v1 ++ '=' :: rest))) name _ =
        parseLoop t (Split ' ' (n ++ '=' :: v1)) name _
      rw [Split_of_not_mem ' ' _ hsp, Split_of_not_mem ' ' _ hspB]
      exact hcongr t [] [] name _
    refine ⟨?_, getVal_of_parse_eq upper environ keyPrefix _ _ rfl hparse⟩
    simp only [newVar, hparse]
  · intro anything t before after key v
    have hreq : '=' ∉ paramRequired := by decide
    have hsR : Split '=' (paramRequired ++ '=' :: anything) =
        paramRequired :: Split '=' anything := by
      rw [Split_append, Split_of_not_mem '=' _ hreq]
      rfl
    have hpR : tokenParam (paramRequired ++ '=' :: anything) = paramRequired := by
      simp only [tokenParam, hsR, List.headD_cons]
    have hpR0 : tokenParam paramRequired = paramRequired := by decide
    exact ⟨hpR, parseLoop_congr t _ _ after (hpR.trans hpR0.symm) (Or.inr hpR0) before key v⟩

/-- C19 at `default=a=b` on a string field: the policy is that of `default=a`. -/
theorem token_value_ends_at_second_equals_witness :
    newVar upperASCII []
        { Name := "Mode".toList, Typ := Kind.string,
          Tag := "default".toList ++ '=' :: ("a".toList ++ '=' :: "b".toList) } =
      newVar upperASCII []
        { Name := "Mode".toList, Typ := Kind.string,
          Tag := "default".toList ++ '=' :: "a".toList } :=
  ((token_value_ends_at_second_equals "default".toList "a".toList "b".toList
    (by decide) (by decide)).2.2.2.2.2.1 upperASCII [] [] "Mode".toList Kind.string
    (by decide)).1

end Env
